import Mathlib

/-!
Shallow embedding of the DSP_CNV_e1 pipeline module (lockedFxns) and proofs
about its specified behaviour.  File contents are modelled as lists of lines
(without their terminating newline, as produced by Python text-mode
iteration); a file system is a partial map from names to contents.  Fallible
Python code is modelled with `Except PyErr`.
-/

namespace DSP

/-- Kinds of Python exception outcomes that the embedded code can raise. -/
inductive PyErr where
  | ioError
  | indexError
  | keyError
  | valueError
  | typeError
  | nameError
  | attributeError
  | exception (msg : String)
deriving DecidableEq, Repr

/-- A file system: maps a file name to its list of lines, if the file exists. -/
def FS : Type := String → Option (List String)

instance {ε α : Type} [DecidableEq ε] [DecidableEq α] : DecidableEq (Except ε α) :=
  fun a b =>
    match a, b with
    | .error e, .error f =>
      if h : e = f then .isTrue (h ▸ rfl) else .isFalse (fun hh => h (Except.error.inj hh))
    | .error _, .ok _ => .isFalse Except.noConfusion
    | .ok _, .error _ => .isFalse Except.noConfusion
    | .ok x, .ok y =>
      if h : x = y then .isTrue (h ▸ rfl) else .isFalse (fun hh => h (Except.ok.inj hh))

/-- Python `s.startswith(pre)` (kernel-reducible list form). -/
def pyStartsWith (s pre : String) : Bool := pre.data.isPrefixOf s.data

/-- Python `s.endswith(suffix)` (kernel-reducible list form). -/
def pyEndsWith (s suffix : String) : Bool := suffix.data.isSuffixOf s.data

/-- ASCII lower-casing of one character (Python `str.lower` on the
ASCII-only names used here). -/
def lowerChar (c : Char) : Char :=
  if 65 ≤ c.toNat ∧ c.toNat ≤ 90 then Char.ofNat (c.toNat + 32) else c

/-- Python `s.lower()`. -/
def pyLower (s : String) : String := String.mk (s.data.map lowerChar)

/-- Characters stripped by Python `str.rstrip()` / `str.strip()`. -/
def isPySpace (c : Char) : Bool :=
  c = ' ' || c = '\t' || c = '\n' || c = '\r' || c = '\x0b' || c = '\x0c'

/-- Right-strip whitespace from a character list (Python `rstrip`). -/
def rstripData (l : List Char) : List Char :=
  (l.reverse.dropWhile isPySpace).reverse

/-- Python `str.rstrip()`. -/
def pyRstrip (s : String) : String := String.mk (rstripData s.data)

/-- Strip whitespace from both ends (Python `str.strip()`). -/
def stripData (l : List Char) : List Char :=
  rstripData (l.dropWhile isPySpace)

/-- Split a character list at every occurrence of `c`
(Python `str.split(c)` semantics: never returns an empty list). -/
def splitChar (c : Char) : List Char → List (List Char)
  | [] => [[]]
  | x :: xs =>
    if x = c then [] :: splitChar c xs
    else
      match splitChar c xs with
      | [] => [[x]]
      | p :: ps => (x :: p) :: ps

/-- Split a string at every occurrence of the character `c`. -/
def splitStr (c : Char) (s : String) : List String :=
  (splitChar c s.data).map String.mk

/-- Python `sep.join(strs)`. -/
def joinWith (sep : String) : List String → String
  | [] => ""
  | [x] => x
  | x :: y :: r => x ++ sep ++ joinWith sep (y :: r)

/-- Interleave a separator between character lists (the `data` of a join). -/
def interCS (sep : List Char) : List (List Char) → List Char
  | [] => []
  | [x] => x
  | x :: y :: r => x ++ sep ++ interCS sep (y :: r)

/-- Python `list.index` as an optional index of the first occurrence
(`None` models the `ValueError` branch). -/
def idxOf? : List String → String → Option Nat
  | [], _ => none
  | x :: xs, s => if x = s then some 0 else (idxOf? xs s).map (· + 1)

/-- Keys of an association list (Python `dict.keys()`). -/
def keys {α : Type} (l : List (String × α)) : List String := l.map Prod.fst

/-- First-occurrence lookup in an association list (Python `dict[k]` read). -/
def alookup {α : Type} : List (String × α) → String → Option α
  | [], _ => none
  | kv :: rest, k => if kv.1 = k then some kv.2 else alookup rest k

/-- Python `dict[k] = v`: overwrite the value in place if the key is present
(keeping its position), else append the pair at the end. -/
def aset {α : Type} : List (String × α) → String → α → List (String × α)
  | [], k, v => [(k, v)]
  | kv :: rest, k, v =>
    if kv.1 = k then (k, v) :: rest else kv :: aset rest k v

/-- `mapM` specialised to `Except PyErr`, mirroring a Python loop that can
raise: the first exception aborts. -/
def exMapM {α β : Type} (g : α → Except PyErr β) : List α → Except PyErr (List β)
  | [] => .ok []
  | x :: xs => (g x).bind fun y => (exMapM g xs).map fun ys => y :: ys

/-- `foldlM` specialised to `Except PyErr`, mirroring a stateful Python loop
that can raise. -/
def exFoldl {σ α : Type} (g : σ → α → Except PyErr σ) (init : σ) :
    List α → Except PyErr σ
  | [] => .ok init
  | x :: xs => (g init x).bind fun st => exFoldl g st xs

/-! ## fileLines / fastqReads -/

/-- `fileLines`: counts the lines of a (possibly gzipped) file.  Opening a
missing file raises `IOError`; on an empty file the Python loop variable `i`
is never bound and `i + 1` raises a `NameError`-style fatal error.  The gzip
branch differs only in how the bytes are read, not in line accounting. -/
def fileLines (fs : FS) (fName : String) : Except PyErr Nat :=
  match fs fName with
  | none => .error .ioError
  | some lines => if lines.isEmpty then .error .nameError else .ok lines.length

/-- `fastqReads`: `fileLines(fName) / 4` inside a bare `try/except` that
returns `0` on any failure.  Python 3 `/` is true division, so the result is
modelled as an exact rational. -/
def fastqReads (fs : FS) (fName : String) : ℚ :=
  match fileLines fs fName with
  | .error _ => 0
  | .ok n => (n : ℚ) / 4

/-! ## samSummary -/

/-- Increment a target's bucket: `targets[targ] = targets.setdefault(targ, 0) + 1`
(insert `(targ, 1)` at the end if absent, else bump in place). -/
def bump (tg : List (String × Nat)) (t : String) : List (String × Nat) :=
  match alookup tg t with
  | some n => aset tg t (n + 1)
  | none => tg ++ [(t, 1)]

/-- One record step of `samSummary`.  A record is the tab-split field list of
one line (`csv.reader` with a tab delimiter).  `line[0]` / `line[2]` on a
too-short record raise `IndexError`; `line[2]` is the third field. -/
def samStep (st : Nat × Nat × List (String × Nat)) (r : List String) :
    Except PyErr (Nat × Nat × List (String × Nat)) :=
  match r with
  | [] => .error .indexError
  | f0 :: rest =>
    if pyStartsWith f0 "@" then .ok st
    else
      match rest with
      | _ :: t :: _ =>
        if t = "*" then .ok (st.1 + 1, st.2.1, st.2.2)
        else .ok (st.1, st.2.1 + 1, bump st.2.2 t)
      | _ => .error .indexError

/-- `samSummary` over the already tab-split records of the file. -/
def samSummaryRecs (rs : List (List String)) :
    Except PyErr (Nat × Nat × List (String × Nat)) :=
  exFoldl samStep (0, 0, []) rs

/-- `samSummary(sam)`: returns `(unaligned, aligned, targets)`. -/
def samSummary (fs : FS) (sam : String) :
    Except PyErr (Nat × Nat × List (String × Nat)) :=
  match fs sam with
  | none => .error .ioError
  | some lines => samSummaryRecs (lines.map (fun l => splitStr '\t' l))

/-! ## summaryInfo -/

/-- The fixed pipeline stages (`summaryInfo.steps`). -/
def steps : List String := ["Raw", "Trimmed", "Stitched", "Aligned"]

/-- `summaryInfo`: sample label plus per-stage summary values. -/
structure SummaryInfo where
  fRoot : String
  vals : List (String × ℚ)
deriving DecidableEq, Repr

/-- `summaryInfo.__init__`: all stage values start at `0`. -/
def summaryInit (fRoot : String) : SummaryInfo :=
  ⟨fRoot, steps.map (fun s => (s, 0))⟩

/-- The fastq-family extension test of `summaryInfo.update`
(`stepFile.endswith(('fq', 'fastq', 'fastq.gz'))`). -/
def isFastqExt (f : String) : Bool :=
  pyEndsWith f "fq" || pyEndsWith f "fastq" || pyEndsWith f "fastq.gz"

/-- `summaryInfo.update(step, stepFile, forceVal=0)`.  The source line
`aln, _unaln, _targs = samSummary(stepFile)` binds the FIRST component of
`samSummary`'s `(unaligned, aligned, targets)` result to the name `aln`,
so the value stored for an alignment file is the unaligned-record count. -/
def update (fs : FS) (s : SummaryInfo) (stp stepFile : String) (forceVal : ℚ) :
    Except PyErr (SummaryInfo × Bool) :=
  if steps.contains stp then
    (if forceVal ≠ 0 then .ok forceVal
     else if isFastqExt stepFile then .ok (fastqReads fs stepFile)
     else if pyEndsWith stepFile "sam" then
       (samSummary fs stepFile).map (fun res => (res.1 : ℚ))
     else .error (.exception "File type is not supported for summary info")
    ).map (fun v => (⟨s.fRoot, aset s.vals stp v⟩, if v = 0 then false else true))
  else .error (.exception "not recognized as summary step")

/-! ## dccfile -/

/-- One field of a code-summary row.  Parsed rows hold strings; `addcounts`
stores Python `int` values into the Count cell of a row, so a cell is a
string or an integer. -/
inductive Fld where
  | s (v : String)
  | i (n : Int)
deriving DecidableEq, Repr

/-- The `dccfile` object state. -/
structure DccFile where
  header : List (String × String)
  scanattribs : List (String × String)
  ngsattribs : List (String × String)
  codelabs : List String
  codesum : List (String × List Fld)
  countcol : Nat
  namecol : Nat
deriving DecidableEq, Repr

/-- The attribute state set up at the start of `dccfile.__init__`. -/
def emptyDcc : DccFile := ⟨[], [], [], [], [], 0, 0⟩

/-- Value of an all-digit character list, most significant digit first. -/
def digitsValAux : List Char → Nat → Option Nat
  | [], acc => some acc
  | c :: r, acc =>
    if c.isDigit then digitsValAux r (acc * 10 + (c.toNat - 48)) else none

/-- Parse an optional sign followed by a nonempty digit run. -/
def pyIntCore (l : List Char) : Option Int :=
  match l with
  | '-' :: r => if r = [] then none else (digitsValAux r 0).map (fun n => -(n : Int))
  | '+' :: r => if r = [] then none else (digitsValAux r 0).map (fun n => (n : Int))
  | r => if r = [] then none else (digitsValAux r 0).map (fun n => (n : Int))

/-- Python `int(x)` on a row cell: an `int` passes through; a string is
stripped of surrounding whitespace and parsed as a signed decimal numeral
(raising `ValueError` on failure).  Digit-group underscores are not
modelled. -/
def pyInt (f : Fld) : Except PyErr Int :=
  match f with
  | .i n => .ok n
  | .s v =>
    match pyIntCore (stripData v.data) with
    | some n => .ok n
    | none => .error .valueError

/-- `dccfile.getcodeval(analyte, attribute)`:
`idx = self.codelabs.index(attribute)` (ValueError if absent), then
`self.codesum[analyte]` (KeyError if absent), then `row[idx]`
(IndexError if the row is too short). -/
def getcodeval (d : DccFile) (analyte attrib : String) : Except PyErr Fld :=
  match idxOf? d.codelabs attrib with
  | none => .error .valueError
  | some idx =>
    match alookup d.codesum analyte with
    | none => .error .keyError
    | some row =>
      match row.get? idx with
      | none => .error .indexError
      | some f => .ok f

/-- `int(self.getcodeval(k, 'Count'))` for a single analyte key. -/
def gCount (d : DccFile) (k : String) : Except PyErr Int :=
  (getcodeval d k "Count").bind pyInt

/-- `dccfile.analytecounts()`: the ordered map from each analyte key to the
integer conversion of its Count cell (iterating `self.codesum.keys()`). -/
def analytecounts (d : DccFile) : Except PyErr (List (String × Int)) :=
  exMapM (fun kv => (gCount d kv.1).map (fun n => (kv.1, n))) d.codesum

/-- In-range list assignment `row[idx] = f` (Python raises `IndexError` when
the index is out of range). -/
def setIdx (row : List Fld) (idx : Nat) (f : Fld) : Except PyErr (List Fld) :=
  if idx < row.length then .ok (row.set idx f) else .error .indexError

/-- The per-analyte body of the `addcounts` loop. -/
def addStep (countIdx nameIdx labsLen : Nat) (acc : DccFile) (kc : String × Int) :
    Except PyErr DccFile :=
  if (keys acc.codesum).contains kc.1 then
    (gCount acc kc.1).bind fun n =>
      match alookup acc.codesum kc.1 with
      | none => .error .keyError
      | some row =>
        (setIdx row countIdx (.i (n + kc.2))).map fun row2 =>
          { acc with codesum := aset acc.codesum kc.1 row2 }
  else
    (setIdx (List.replicate labsLen (Fld.s "")) nameIdx (.s kc.1)).bind fun row1 =>
      (setIdx row1 countIdx (.i kc.2)).map fun row2 =>
        { acc with codesum := acc.codesum ++ [(kc.1, row2)] }

/-- `dccfile.addcounts(dccObj)`: look up the receiver's Count and Name column
indices (ValueError if absent), read all of `other`'s analyte counts, then
fold each `(analyte, count)` into the receiver's `codesum`. -/
def addcounts (d other : DccFile) : Except PyErr DccFile :=
  match idxOf? d.codelabs "Count" with
  | none => .error .valueError
  | some countIdx =>
    match idxOf? d.codelabs "Name" with
    | none => .error .valueError
    | some nameIdx =>
      (analytecounts other).bind fun altCounts =>
        exFoldl (addStep countIdx nameIdx d.codelabs.length) d altCounts

/-! ## dccfile serialization (`__str__`) -/

/-- A cell as the string `','.join` sees it; under the all-string
well-formedness used below only the `.s` case occurs. -/
def fldStr : Fld → String
  | .s v => v
  | .i n => toString n

/-- `','.join(row)`: every cell must be a string, otherwise Python raises
`TypeError`. -/
def fldStrs (row : List Fld) : Except PyErr (List String) :=
  exMapM (fun f => match f with | .s v => .ok v | .i _ => .error .typeError) row

/-- One `label,value` line (`'%s,%s' % (k, v)`). -/
def kvLine (kv : String × String) : String := kv.1 ++ "," ++ kv.2

/-- `dccfile.__str__`: the four-section text with unix newlines. -/
def strdcc (d : DccFile) : Except PyErr String :=
  (exMapM (fun kv => (fldStrs kv.2).map (joinWith ",")) d.codesum).map fun rowLines =>
    "<Header>\n" ++ joinWith "\n" (d.header.map kvLine) ++
    "\n</Header>\n\n<Scan_Attributes>\n" ++ joinWith "\n" (d.scanattribs.map kvLine) ++
    "\n</Scan_Attributes>\n\n<NGS_Processing_Attributes>\n" ++
    joinWith "\n" (d.ngsattribs.map kvLine) ++
    "\n</NGS_Processing_Attributes>\n\n<Code_Summary>\n" ++
    joinWith "," d.codelabs ++ "\n" ++ joinWith "\n" rowLines ++ "\n</Code_Summary>\n"

/-- `('%s' % self).replace('\n', '\r\n')` on the character list. -/
def crlfData : List Char → List Char
  | [] => []
  | c :: r => if c = '\n' then '\r' :: '\n' :: crlfData r else c :: crlfData r

/-- The text written by `windowswrite` (CRLF line endings). -/
def windowsText (t : String) : String := String.mk (crlfData t.data)

/-! ## dccfile parsing (`importDCC`) -/

/-- Parser state: current section name, whether the Code_Summary section has
seen its first line (`codeSummaryStarted`), and the object being built. -/
structure PState where
  sect : String
  started : Bool
  d : DccFile
deriving DecidableEq, Repr

/-- `re.sub('<|>', '', line)`: remove every angle bracket. -/
def stripAngles (s : String) : String :=
  String.mk (s.data.filter (fun c => !(c = '<' || c = '>')))

/-- Processing of one line of a DCC file by `importDCC`:
rstrip; skip blanks; close/open section markers; otherwise comma-split and
dispatch on the current section.  In `Code_Summary`, the first line is tried
as a label row (`line.index('Name')` / `line.index('Count')`); if either
lookup raises `ValueError` the handler switches to the implicit new
two-column schema, overwriting the partially assigned label state, and
stores that first line itself as a data row.  A repeated analyte name raises
a plain `Exception`, which `except ValueError` does not catch. -/
def stepLine (st : PState) (rawLine : String) : Except PyErr PState :=
  let line := pyRstrip rawLine
  if line = "" then .ok st
  else if pyStartsWith line "</" then .ok { st with sect := "" }
  else if pyStartsWith line "<" then .ok { st with sect := stripAngles line }
  else
    let fields := splitStr ',' line
    if st.sect = "Header" then
      match fields with
      | f0 :: f1 :: _ => .ok { st with d := { st.d with header := aset st.d.header f0 f1 } }
      | _ => .error .indexError
    else if st.sect = "Scan_Attributes" then
      match fields with
      | f0 :: f1 :: _ =>
        .ok { st with d := { st.d with scanattribs := aset st.d.scanattribs f0 f1 } }
      | _ => .error .indexError
    else if st.sect = "NGS_Processing_Attributes" then
      match fields with
      | f0 :: f1 :: _ =>
        .ok { st with d := { st.d with ngsattribs := aset st.d.ngsattribs f0 f1 } }
      | _ => .ok st
    else if st.sect = "Code_Summary" then
      if st.started = false then
        match idxOf? fields "Name", idxOf? fields "Count" with
        | some ni, some ci =>
          .ok { st with
                started := true
                d := { st.d with codelabs := fields, namecol := ni, countcol := ci } }
        | _, _ =>
          match fields with
          | [] => .error .indexError
          | f0 :: _ =>
            if (keys st.d.codesum).contains f0 then
              .error (.exception "Repeat analyte in Code_Summary")
            else
              .ok { st with
                    started := true
                    d := { st.d with
                           codelabs := ["Name", "Count"]
                           namecol := 0
                           countcol := 1
                           codesum := st.d.codesum ++ [(f0, fields.map Fld.s)] } }
      else
        match fields.get? st.d.namecol with
        | none => .error .indexError
        | some nm =>
          if (keys st.d.codesum).contains nm then
            .error (.exception "Repeat analyte in Code_Summary")
          else
            .ok { st with d :=
                  { st.d with codesum := st.d.codesum ++ [(nm, fields.map Fld.s)] } }
    else .ok st

/-- `importDCC` over the lines of the file. -/
def importLines (lines : List String) : Except PyErr DccFile :=
  (exFoldl stepLine ⟨"", false, emptyDcc⟩ lines).map (fun st => st.d)

/-- `dccfile.importDCC(dccfileName)`: opening a missing file raises
`IOError`. -/
def importDCC (fs : FS) (name : String) : Except PyErr DccFile :=
  match fs name with
  | none => .error .ioError
  | some lines => importLines lines

/-- `dccfile.__init__` dispatches names ending in `sam` to `self.importSAM`,
but no `importSAM` method is defined anywhere in the module, so the call
raises `AttributeError`. -/
def importSAM (_fs : FS) (_name : String) : Except PyErr DccFile :=
  .error .attributeError

/-- `dccfile.__init__(readfromfile='')`: names ending in `dcc`
case-insensitively are imported as DCC, names ending in `sam`
(case-sensitively) go to `importSAM`, anything else leaves the object
empty. -/
def dccInit (fs : FS) (readfromfile : String) : Except PyErr DccFile :=
  if pyEndsWith (pyLower readfromfile) "dcc" then importDCC fs readfromfile
  else if pyEndsWith readfromfile "sam" then importSAM fs readfromfile
  else .ok emptyDcc

/-- Parse the text of a DCC file: Python text-mode iteration yields the
newline-split lines (universal-newline translation folds CRLF into LF, and
`rstrip` removes any remaining `'\r'`). -/
def parseDccText (t : String) : Except PyErr DccFile :=
  importLines ((splitChar '\n' t.data).map String.mk)

/-! ## Derived record predicates used in statements -/

/-- Whether a tab-split record is a header record (first field starts `@`). -/
def isHdrRec (r : List String) : Bool :=
  match r with
  | [] => false
  | f0 :: _ => pyStartsWith f0 "@"

/-- The target field (third column) of a record. -/
def tgtOf (r : List String) : String :=
  match r with
  | _ :: _ :: t :: _ => t
  | _ => ""

/-- Count stored for a target in the per-target bucket list (0 if absent). -/
def lookupCount (tg : List (String × Nat)) (t : String) : Nat :=
  (alookup tg t).getD 0

/-- Records with target `*` (non-header). -/
def cntStar (rs : List (List String)) : Nat :=
  rs.countP (fun r => !isHdrRec r && tgtOf r == "*")

/-- Non-header records with a real target. -/
def cntAln (rs : List (List String)) : Nat :=
  rs.countP (fun r => !isHdrRec r && !(tgtOf r == "*"))

/-- Non-header records with target `t`. -/
def cntTgt (rs : List (List String)) (t : String) : Nat :=
  rs.countP (fun r => !isHdrRec r && tgtOf r == t)

/-! ## Example inputs -/

/-- A file system holding one alignment file with targets
TUBB, `*`, TUBB, ACTB. -/
def c1fs : FS := fun n =>
  if n = "f.sam" then some ["q1\t0\tTUBB", "q2\t0\t*", "q3\t0\tTUBB", "q4\t0\tACTB"]
  else none

/-- A second file system with the same 4-record alignment file, used for the
alignment-summarizer claim. -/
def c8fs : FS := fun n =>
  if n = "a.sam" then some ["q1\t0\tTUBB", "q2\t0\t*", "q3\t0\tTUBB", "q4\t0\tACTB"]
  else none

/-- The empty file system. -/
def noFS : FS := fun _ => none

/-! ## Well-formedness predicates for serializable CountFiles -/

/-- A cell that survives comma-joining and re-splitting. -/
def wfNoComma (s : String) : Prop := ',' ∉ s.data

/-- A string free of newlines. -/
def wfNoNL (s : String) : Prop := '\n' ∉ s.data

/-- A line the parser passes through unchanged to the comma-split stage:
stable under `rstrip`, nonempty, not a section marker, newline-free. -/
def wfLine (s : String) : Prop :=
  pyRstrip s = s ∧ s ≠ "" ∧ pyStartsWith s "</" = false ∧
  pyStartsWith s "<" = false ∧ wfNoNL s

/-- A well-formed key/value attribute pair. -/
def wfKV (kv : String × String) : Prop :=
  wfNoComma kv.1 ∧ wfNoComma kv.2 ∧ wfLine (kvLine kv)

/-- Whether a row cell is a string (serialization raises `TypeError`
otherwise). -/
def isStrFld (f : Fld) : Bool :=
  match f with
  | .s _ => true
  | .i _ => false

/-- The string cells of a code-summary entry. -/
def rowStrs (kv : String × List Fld) : List String := kv.2.map fldStr

/-- The serialized line of a code-summary entry. -/
def rowLine (kv : String × List Fld) : String := joinWith "," (rowStrs kv)

/-- A well-formed code-summary entry for name column `nc`: all cells are
strings, comma-free, the joined line is parser-transparent, and the entry is
keyed by its name-column cell. -/
def wfRowEntry (nc : Nat) (kv : String × List Fld) : Prop :=
  (∀ f ∈ kv.2, isStrFld f = true) ∧ (∀ x ∈ rowStrs kv, wfNoComma x) ∧
  wfLine (rowLine kv) ∧ (rowStrs kv).get? nc = some kv.1

/-- A well-formed data row given directly as its field list. -/
def wfFieldsRow (r : List String) : Prop :=
  (∀ x ∈ r, wfNoComma x) ∧ wfLine (joinWith "," r)

/-- The code-summary entry produced by parsing the two-column data row of a
`(name, count)` pair. -/
def pairEntry (p : String × String) : String × List Fld :=
  (p.1, [Fld.s p.1, Fld.s p.2])

/-- The `'\n'.join` of a possibly empty block inside the serialized text
contributes its lines, or a single blank line when the block is empty. -/
def piece (l : List String) : List String := if l = [] then [""] else l

/-- The line decomposition of the text produced by `dccfile.__str__`. -/
def dccLines (d : DccFile) : List String :=
  ["<Header>"] ++ piece (d.header.map kvLine) ++
  ["</Header>", "", "<Scan_Attributes>"] ++ piece (d.scanattribs.map kvLine) ++
  ["</Scan_Attributes>", "", "<NGS_Processing_Attributes>"] ++
  piece (d.ngsattribs.map kvLine) ++
  ["</NGS_Processing_Attributes>", "", "<Code_Summary>", joinWith "," d.codelabs] ++
  piece (d.codesum.map rowLine) ++ ["</Code_Summary>", ""]

/-- Suffix every non-final line with a carriage return: the effect of CRLF
conversion on the newline-split line list. -/
def addCR : List (List Char) → List (List Char)
  | [] => []
  | [x] => [x]
  | x :: y :: r => (x ++ ['\r']) :: addCR (y :: r)

/-- A CountFile whose serialized text parses back to the same value: all
attribute pairs and row cells are comma- and newline-free strings that do
not collide with the parser's marker/blank-line handling, keys are unique
per section, the column labels contain `Name` and `Count` at the recorded
indices (true for both historical schema variants), and each row is keyed by
its name-column cell. -/
def WfSerializable (d : DccFile) : Prop :=
  (∀ kv ∈ d.header, wfKV kv) ∧ (keys d.header).Nodup ∧
  (∀ kv ∈ d.scanattribs, wfKV kv) ∧ (keys d.scanattribs).Nodup ∧
  (∀ kv ∈ d.ngsattribs, wfKV kv) ∧ (keys d.ngsattribs).Nodup ∧
  (∀ lab ∈ d.codelabs, wfNoComma lab) ∧ wfLine (joinWith "," d.codelabs) ∧
  idxOf? d.codelabs "Name" = some d.namecol ∧
  idxOf? d.codelabs "Count" = some d.countcol ∧
  (keys d.codesum).Nodup ∧ (∀ kv ∈ d.codesum, wfRowEntry d.namecol kv)

instance (s : String) : Decidable (wfNoComma s) :=
  inferInstanceAs (Decidable (',' ∉ s.data))

instance (s : String) : Decidable (wfNoNL s) :=
  inferInstanceAs (Decidable ('\n' ∉ s.data))

instance (s : String) : Decidable (wfLine s) :=
  inferInstanceAs (Decidable (pyRstrip s = s ∧ s ≠ "" ∧ pyStartsWith s "</" = false ∧
    pyStartsWith s "<" = false ∧ wfNoNL s))

instance (kv : String × String) : Decidable (wfKV kv) :=
  inferInstanceAs (Decidable (wfNoComma kv.1 ∧ wfNoComma kv.2 ∧ wfLine (kvLine kv)))

instance (nc : Nat) (kv : String × List Fld) : Decidable (wfRowEntry nc kv) :=
  inferInstanceAs (Decidable ((∀ f ∈ kv.2, isStrFld f = true) ∧
    (∀ x ∈ rowStrs kv, wfNoComma x) ∧ wfLine (rowLine kv) ∧
    (rowStrs kv).get? nc = some kv.1))

instance (r : List String) : Decidable (wfFieldsRow r) :=
  inferInstanceAs (Decidable ((∀ x ∈ r, wfNoComma x) ∧ wfLine (joinWith "," r)))

instance (d : DccFile) : Decidable (WfSerializable d) :=
  inferInstanceAs (Decidable ((∀ kv ∈ d.header, wfKV kv) ∧ (keys d.header).Nodup ∧
    (∀ kv ∈ d.scanattribs, wfKV kv) ∧ (keys d.scanattribs).Nodup ∧
    (∀ kv ∈ d.ngsattribs, wfKV kv) ∧ (keys d.ngsattribs).Nodup ∧
    (∀ lab ∈ d.codelabs, wfNoComma lab) ∧ wfLine (joinWith "," d.codelabs) ∧
    idxOf? d.codelabs "Name" = some d.namecol ∧
    idxOf? d.codelabs "Count" = some d.countcol ∧
    (keys d.codesum).Nodup ∧ (∀ kv ∈ d.codesum, wfRowEntry d.namecol kv)))

/-! ## Example CountFiles -/

/-- An old-schema CountFile with an extra column, used as a merge receiver. -/
def exA : DccFile :=
  ⟨[], [], [], ["Name", "X", "Count"],
   [("TUBB", [.s "TUBB", .s "z", .s "7"]), ("GAPDH", [.s "GAPDH", .s "y", .s "2"])], 2, 0⟩

/-- A new-schema CountFile, used as a merge argument. -/
def exB : DccFile :=
  ⟨[], [], [], ["Name", "Count"],
   [("TUBB", [.s "TUBB", .s "5"]), ("ACTB", [.s "ACTB", .s "3"])], 1, 0⟩

/-- The merge of `exA` with `exB`'s counts. -/
def exAB : DccFile :=
  ⟨[], [], [], ["Name", "X", "Count"],
   [("TUBB", [.s "TUBB", .s "z", .i 12]), ("GAPDH", [.s "GAPDH", .s "y", .s "2"]),
    ("ACTB", [.s "ACTB", .s "", .i 3])], 2, 0⟩

/-- A fully populated CountFile used as the round-trip witness. -/
def exRound : DccFile :=
  ⟨[("FileVersion", "0.01"), ("Date", "2019-01-07")], [("ID", "S1"), ("Well", "A01")],
   [("Raw", "100"), ("Aligned", "80")], ["Name", "Count"],
   [("TUBB", [.s "TUBB", .s "120"]), ("ACTB", [.s "ACTB", .s "3"])], 1, 0⟩

/-- A CountFile whose header value contains a comma: serialization loses the
part after the comma, so the round-trip is not the identity. -/
def exComma : DccFile :=
  ⟨[("Owner", "lab,main")], [], [], ["Name", "Count"], [], 1, 0⟩

end DSP

namespace DSP

/-! ## Association-list lemmas -/

theorem alookup_aset_self {α : Type} (l : List (String × α)) (k : String) (v : α) :
    alookup (aset l k v) k = some v := by
  induction l with
  | nil => simp [aset, alookup]
  | cons kv rest ih =>
    by_cases h : kv.1 = k
    · simp [aset, h, alookup]
    · simp [aset, h, alookup, ih]

theorem alookup_aset_ne {α : Type} (l : List (String × α)) (k k2 : String) (v : α)
    (h : k2 ≠ k) : alookup (aset l k v) k2 = alookup l k2 := by
  induction l with
  | nil => simp only [aset, alookup, if_neg (Ne.symm h)]
  | cons kv rest ih =>
    by_cases hk : kv.1 = k
    · have hne2 : kv.1 ≠ k2 := by rw [hk]; exact Ne.symm h
      simp only [aset, if_pos hk, alookup, if_neg (Ne.symm h), if_neg hne2]
    · simp only [aset, if_neg hk, alookup, ih]

theorem alookup_append {α : Type} (l1 l2 : List (String × α)) (k : String) :
    alookup (l1 ++ l2) k =
      match alookup l1 k with
      | some v => some v
      | none => alookup l2 k := by
  induction l1 with
  | nil => simp [alookup]
  | cons kv rest ih =>
    by_cases h : kv.1 = k
    · simp [alookup, h]
    · simp [alookup, h, ih]

theorem lookupCount_bump_self (tg : List (String × Nat)) (t : String) :
    lookupCount (bump tg t) t = lookupCount tg t + 1 := by
  unfold bump
  cases h : alookup tg t with
  | none =>
    simp [lookupCount, alookup_append, h, alookup]
  | some n =>
    simp [lookupCount, alookup_aset_self, h]

theorem lookupCount_bump_ne (tg : List (String × Nat)) (t t0 : String) (h : t ≠ t0) :
    lookupCount (bump tg t0) t = lookupCount tg t := by
  unfold bump
  cases h0 : alookup tg t0 with
  | none =>
    rw [lookupCount, alookup_append]
    simp only [alookup, if_neg (Ne.symm h)]
    cases hx : alookup tg t <;> simp [lookupCount, hx]
  | some n =>
    rw [lookupCount, alookup_aset_ne _ _ _ _ h, lookupCount]

theorem alookup_eq_none_iff {α : Type} (l : List (String × α)) (k : String) :
    alookup l k = none ↔ k ∉ keys l := by
  induction l with
  | nil => simp [alookup, keys]
  | cons kv rest ih =>
    by_cases h : kv.1 = k
    · simp [alookup, h, keys]
    · simp [alookup, h, keys, ih, Ne.symm h]

theorem alookup_append_single_ne {α : Type} (l : List (String × α)) (k0 k : String)
    (v : α) (h : k ≠ k0) : alookup (l ++ [(k0, v)]) k = alookup l k := by
  rw [alookup_append]
  cases hx : alookup l k with
  | none => simp [alookup, Ne.symm h]
  | some w => simp

theorem keys_aset_of_mem {α : Type} (l : List (String × α)) (k : String) (v : α)
    (h : k ∈ keys l) : keys (aset l k v) = keys l := by
  induction l with
  | nil => simp [keys] at h
  | cons kv rest ih =>
    by_cases hk : kv.1 = k
    · simp [aset, hk, keys]
    · have hmem : k ∈ keys rest := by
        rcases (by simpa [keys] using h : k = kv.1 ∨ k ∈ keys rest) with h1 | h2
        · exact absurd h1.symm hk
        · exact h2
      have hrec := ih hmem
      simp only [keys] at hrec ⊢
      simp [aset, hk, hrec]

theorem keys_append {α : Type} (l1 l2 : List (String × α)) :
    keys (l1 ++ l2) = keys l1 ++ keys l2 := by
  simp [keys]

/-! ## samSummary: fold characterisation -/

theorem sam_fold (rs : List (List String)) :
    ∀ st : Nat × Nat × List (String × Nat),
      (∀ r ∈ rs, r ≠ [] ∧ (isHdrRec r = false → 3 ≤ r.length)) →
      ∃ tg, exFoldl samStep st rs = .ok (st.1 + cntStar rs, st.2.1 + cntAln rs, tg) ∧
        ∀ t, t ≠ "*" → lookupCount tg t = lookupCount st.2.2 t + cntTgt rs t := by
  induction rs with
  | nil =>
    intro st _
    exact ⟨st.2.2, by simp [exFoldl, cntStar, cntAln], fun t _ => by simp [cntTgt]⟩
  | cons r rest ih =>
    intro st h
    obtain ⟨hne, hlen⟩ := h r (List.mem_cons_self r rest)
    have hrest : ∀ x ∈ rest, x ≠ [] ∧ (isHdrRec x = false → 3 ≤ x.length) :=
      fun x hx => h x (List.mem_cons_of_mem r hx)
    cases r with
    | nil => exact absurd rfl hne
    | cons f0 rtail =>
      by_cases hH : pyStartsWith f0 "@" = true
      · have hHrec : isHdrRec (f0 :: rtail) = true := by simp [isHdrRec, hH]
        have hstep : samStep st (f0 :: rtail) = .ok st := by simp [samStep, hH]
        obtain ⟨tg, hfold, hlook⟩ := ih st hrest
        refine ⟨tg, ?_, ?_⟩
        · simpa [exFoldl, hstep, cntStar, cntAln, List.countP_cons, hHrec] using hfold
        · intro t ht
          simpa [cntTgt, List.countP_cons, hHrec] using hlook t ht
      · have hHrec : isHdrRec (f0 :: rtail) = false := by
          simp only [isHdrRec]
          exact eq_false_of_ne_true hH
        have h3 : 3 ≤ (f0 :: rtail).length := hlen hHrec
        match rtail, h3 with
        | f1 :: t0 :: rtail3, _ =>
          have ht0 : tgtOf (f0 :: f1 :: t0 :: rtail3) = t0 := rfl
          by_cases hstar : t0 = "*"
          · subst hstar
            have hstep : samStep st (f0 :: f1 :: "*" :: rtail3) =
                .ok (st.1 + 1, st.2.1, st.2.2) := by
              simp [samStep, hH]
            obtain ⟨tg, hfold, hlook⟩ := ih (st.1 + 1, st.2.1, st.2.2) hrest
            refine ⟨tg, ?_, ?_⟩
            · have hc1 : cntStar ((f0 :: f1 :: "*" :: rtail3) :: rest) = cntStar rest + 1 := by
                simp [cntStar, List.countP_cons, hHrec, tgtOf]
              have hc2 : cntAln ((f0 :: f1 :: "*" :: rtail3) :: rest) = cntAln rest := by
                simp [cntAln, List.countP_cons, hHrec, tgtOf]
              rw [hc1, hc2, exFoldl, hstep]
              simpa [Nat.add_assoc, Nat.add_comm 1 (cntStar rest)] using hfold
            · intro t ht
              have hpred : cntTgt ((f0 :: f1 :: "*" :: rtail3) :: rest) t = cntTgt rest t := by
                simp [cntTgt, List.countP_cons, hHrec, tgtOf, Ne.symm ht]
              rw [hpred]
              exact hlook t ht
          · have hstep : samStep st (f0 :: f1 :: t0 :: rtail3) =
                .ok (st.1, st.2.1 + 1, bump st.2.2 t0) := by
              simp [samStep, hH, hstar]
            obtain ⟨tg, hfold, hlook⟩ := ih (st.1, st.2.1 + 1, bump st.2.2 t0) hrest
            refine ⟨tg, ?_, ?_⟩
            · have hc1 : cntStar ((f0 :: f1 :: t0 :: rtail3) :: rest) = cntStar rest := by
                simp [cntStar, List.countP_cons, hHrec, tgtOf, hstar]
              have hc2 : cntAln ((f0 :: f1 :: t0 :: rtail3) :: rest) = cntAln rest + 1 := by
                simp [cntAln, List.countP_cons, hHrec, tgtOf, hstar]
              rw [hc1, hc2, exFoldl, hstep]
              simpa [Nat.add_assoc, Nat.add_comm 1 (cntAln rest)] using hfold
            · intro t ht
              by_cases htt : t = t0
              · subst htt
                rw [hlook t ht, lookupCount_bump_self]
                have : cntTgt ((f0 :: f1 :: t :: rtail3) :: rest) t = cntTgt rest t + 1 := by
                  simp [cntTgt, List.countP_cons, hHrec, tgtOf]
                rw [this]
                omega
              · rw [hlook t ht, lookupCount_bump_ne _ _ _ htt]
                have : cntTgt ((f0 :: f1 :: t0 :: rtail3) :: rest) t = cntTgt rest t := by
                  simp [cntTgt, List.countP_cons, hHrec, tgtOf, Ne.symm htt]
                rw [this]

/-- Claim C8: the alignment summarizer skips `@`-lines, counts `*`-target
records as unaligned, and counts every other record as aligned and toward
its target's bucket; on the concrete 4-record file with targets TUBB, `*`,
TUBB, ACTB it returns `(1, 3, {TUBB: 2, ACTB: 1})`. -/
theorem samSummary_counts (fs : FS) (name : String) (lines : List String)
    (hfs : fs name = some lines)
    (h : ∀ r ∈ lines.map (fun l => splitStr '\t' l),
      r ≠ [] ∧ (isHdrRec r = false → 3 ≤ r.length)) :
    (∃ tg, samSummary fs name =
        .ok (cntStar (lines.map (fun l => splitStr '\t' l)),
             cntAln (lines.map (fun l => splitStr '\t' l)), tg) ∧
      ∀ t, t ≠ "*" → lookupCount tg t = cntTgt (lines.map (fun l => splitStr '\t' l)) t) ∧
    (lines = ["q1\t0\tTUBB", "q2\t0\t*", "q3\t0\tTUBB", "q4\t0\tACTB"] →
      samSummary fs name = .ok (1, 3, [("TUBB", 2), ("ACTB", 1)])) := by
  constructor
  · obtain ⟨tg, hfold, hlook⟩ := sam_fold (lines.map (fun l => splitStr '\t' l)) (0, 0, []) h
    refine ⟨tg, ?_, ?_⟩
    · simpa [samSummary, hfs, samSummaryRecs] using hfold
    · intro t ht
      simpa [lookupCount, alookup] using hlook t ht
  · intro hl
    subst hl
    simp only [samSummary, hfs]
    decide

/-- Witness for C8 at the concrete 4-record alignment file. -/
theorem samSummary_counts_witness :
    c8fs "a.sam" = some ["q1\t0\tTUBB", "q2\t0\t*", "q3\t0\tTUBB", "q4\t0\tACTB"] ∧
    samSummary c8fs "a.sam" = .ok (1, 3, [("TUBB", 2), ("ACTB", 1)]) :=
  ⟨rfl, (samSummary_counts c8fs "a.sam" _ rfl (by decide)).2 rfl⟩

/-! ## Claim C1 -/

/-- Claim C1 (code bug): `summaryInfo.update` on an alignment file stores the
FIRST component of `samSummary`'s `(unaligned, aligned, targets)` result
because of the unpacking `aln, _unaln, _targs = samSummary(stepFile)`.  On a
file whose aligned count is 3 and unaligned count is 1, the stored value for
stage `Aligned` is 1, not the aligned-record count 3 required by the spec. -/
theorem update_sam_stores_unaligned :
    samSummary c1fs "f.sam" = .ok (1, 3, [("TUBB", 2), ("ACTB", 1)]) ∧
    update c1fs (summaryInit "s") "Aligned" "f.sam" 0 =
      .ok (⟨"s", [("Raw", 0), ("Trimmed", 0), ("Stitched", 0), ("Aligned", 1)]⟩, true) ∧
    (1 : ℚ) ≠ 3 := by
  refine ⟨by decide, by decide, by norm_num⟩

/-! ## Claim C7 -/

/-- Counterexample to claim C7 as stated: a stage update for a missing fastq
file does NOT fail; it succeeds, records 0 and returns `false`. -/
theorem fastq_missing_counterexample :
    update noFS (summaryInit "s") "Raw" "r.fastq" 0 = .ok (summaryInit "s", false) := by
  decide

/-- Claim C7 (amended): for a stage update whose source file has a
fastq-family extension but is missing, `fastqReads` swallows the `IOError`
and returns 0, so the update succeeds, records a count of 0 for that stage
and returns `false`. -/
theorem fastq_missing_records_zero (fs : FS) (s : SummaryInfo) (stp f : String)
    (h1 : steps.contains stp = true) (h2 : isFastqExt f = true) (h3 : fs f = none) :
    update fs s stp f 0 = .ok (⟨s.fRoot, aset s.vals stp 0⟩, false) := by
  have h1m : stp ∈ steps := by simpa using h1
  simp [update, h1m, h2, fastqReads, fileLines, h3, Except.map]

/-- Witness for the amended C7. -/
theorem fastq_missing_records_zero_witness :
    steps.contains "Raw" = true ∧ isFastqExt "x.fq" = true ∧
    update noFS (summaryInit "w") "Raw" "x.fq" 0 =
      .ok (⟨"w", aset (summaryInit "w").vals "Raw" 0⟩, false) :=
  ⟨by decide, by decide,
    fastq_missing_records_zero noFS (summaryInit "w") "Raw" "x.fq"
      (by decide) (by decide) rfl⟩

/-! ## Claim C9 -/

/-- Counterexample to claim C9 as stated: `"X.DCC"` ends in neither the
literal `dcc` nor `sam`, yet `__init__` lower-cases the name, matches the
`dcc` branch, and attempts file I/O (here an `IOError` on the empty file
system) instead of returning an empty object. -/
theorem init_nonmatching_counterexample :
    pyEndsWith "X.DCC" "dcc" = false ∧ pyEndsWith "X.DCC" "sam" = false ∧
    dccInit noFS "X.DCC" = .error .ioError := by
  refine ⟨by decide, by decide, by decide⟩

/-- Claim C9 (amended): a name that ends in neither `dcc` case-insensitively
nor `sam` case-sensitively yields, for every file system (hence without any
file I/O and without error), the empty object: all four sections empty, no
column labels, and both column indices 0. -/
theorem init_nonmatching_gives_empty (fs : FS) (name : String)
    (h1 : pyEndsWith (pyLower name) "dcc" = false)
    (h2 : pyEndsWith name "sam" = false) :
    dccInit fs name = .ok emptyDcc ∧ emptyDcc.header = [] ∧
    emptyDcc.scanattribs = [] ∧ emptyDcc.ngsattribs = [] ∧
    emptyDcc.codelabs = [] ∧ emptyDcc.codesum = [] ∧
    emptyDcc.namecol = 0 ∧ emptyDcc.countcol = 0 := by
  refine ⟨?_, rfl, rfl, rfl, rfl, rfl, rfl, rfl⟩
  simp [dccInit, h1, h2]

/-- Witness for the amended C9. -/
theorem init_nonmatching_gives_empty_witness :
    pyEndsWith (pyLower "counts.txt") "dcc" = false ∧
    pyEndsWith "counts.txt" "sam" = false ∧
    dccInit noFS "counts.txt" = .ok emptyDcc :=
  ⟨by decide, by decide,
    (init_nonmatching_gives_empty noFS "counts.txt" (by decide) (by decide)).1⟩

/-! ## List set/get lemmas -/

theorem get?_set_self {α : Type} (l : List α) (i : Nat) (a : α) (h : i < l.length) :
    (l.set i a).get? i = some a := by
  induction l generalizing i with
  | nil => simp at h
  | cons x xs ih =>
    cases i with
    | zero => simp [List.set]
    | succ j =>
      simp only [List.set, List.get?_cons_succ]
      exact ih j (by simpa using h)

theorem get?_set_ne {α : Type} (l : List α) (i j : Nat) (a : α) (h : i ≠ j) :
    (l.set i a).get? j = l.get? j := by
  induction l generalizing i j with
  | nil => simp
  | cons x xs ih =>
    cases i with
    | zero =>
      cases j with
      | zero => exact absurd rfl h
      | succ j2 => simp [List.set]
    | succ i2 =>
      cases j with
      | zero => simp [List.set]
      | succ j2 =>
        simp only [List.set, List.get?_cons_succ]
        exact ih i2 j2 (fun hh => h (by rw [hh]))

theorem idxOf?_lt_length (l : List String) (s : String) (i : Nat)
    (h : idxOf? l s = some i) : i < l.length := by
  induction l generalizing i with
  | nil => simp [idxOf?] at h
  | cons x xs ih =>
    by_cases hx : x = s
    · rw [idxOf?, if_pos hx] at h
      cases h
      simp
    · simp only [idxOf?, if_neg hx, Option.map_eq_some'] at h
      obtain ⟨j, hj, rfl⟩ := h
      have := ih j hj
      simp
      omega

/-! ## exMapM lemmas -/

theorem exMapM_ok_of {α β : Type} (g : α → Except PyErr β) (rows : List α)
    (h : ∀ x ∈ rows, ∃ y, g x = .ok y) : ∃ l, exMapM g rows = .ok l := by
  induction rows with
  | nil => exact ⟨[], rfl⟩
  | cons x xs ih =>
    obtain ⟨y, hy⟩ := h x (List.mem_cons_self x xs)
    obtain ⟨l, hl⟩ := ih (fun z hz => h z (List.mem_cons_of_mem x hz))
    exact ⟨y :: l, by simp [exMapM, hy, hl, Except.bind, Except.map]⟩

theorem exMapM_keyed_spec {α : Type} (g : String → Except PyErr Int)
    (rows : List (String × α)) (l : List (String × Int))
    (h : exMapM (fun kv => (g kv.1).map (fun n => (kv.1, n))) rows = .ok l) :
    keys l = keys rows ∧
    (∀ k, alookup rows k = none → alookup l k = none) ∧
    (∀ k row, alookup rows k = some row → ∃ n, g k = .ok n ∧ alookup l k = some n) := by
  induction rows generalizing l with
  | nil =>
    simp only [exMapM] at h
    cases h
    exact ⟨rfl, fun k _ => rfl, fun k row hk => by simp [alookup] at hk⟩
  | cons kv rest ih =>
    simp only [exMapM] at h
    cases hg : g kv.1 with
    | error e => rw [hg] at h; simp [Except.bind, Except.map] at h
    | ok n =>
      rw [hg] at h
      cases hrest : exMapM (fun kv => (g kv.1).map (fun n => (kv.1, n))) rest with
      | error e => rw [hrest] at h; simp [Except.bind, Except.map] at h
      | ok l2 =>
        rw [hrest] at h
        simp only [Except.bind, Except.map] at h
        cases h
        obtain ⟨ihk, ih1, ih2⟩ := ih l2 hrest
        refine ⟨by simp [keys] at ihk ⊢; exact ihk, ?_, ?_⟩
        · intro k hk
          by_cases hkk : kv.1 = k
          · simp [alookup, hkk] at hk
          · simp only [alookup, if_neg hkk] at hk ⊢
            exact ih1 k hk
        · intro k row hk
          by_cases hkk : kv.1 = k
          · refine ⟨n, hkk ▸ hg, ?_⟩
            simp [alookup, hkk]
          · simp only [alookup, if_neg hkk] at hk ⊢
            exact ih2 k row hk

/-! ## gCount lemmas -/

theorem keys_cons {α : Type} (kv : String × α) (rest : List (String × α)) :
    keys (kv :: rest) = kv.1 :: keys rest := rfl

theorem mem_keys_of_mem {α : Type} {l : List (String × α)} {p : String × α}
    (h : p ∈ l) : p.1 ∈ keys l := List.mem_map_of_mem Prod.fst h

theorem gCount_none (d : DccFile) (ic : Nat) (hic : idxOf? d.codelabs "Count" = some ic)
    (k : String) (hl : alookup d.codesum k = none) : gCount d k = .error .keyError := by
  unfold gCount getcodeval
  rw [hic, hl]
  rfl

theorem gCount_some (d : DccFile) (ic : Nat) (hic : idxOf? d.codelabs "Count" = some ic)
    (k : String) (row : List Fld) (hl : alookup d.codesum k = some row) :
    gCount d k =
      match row.get? ic with
      | none => .error .indexError
      | some f => pyInt f := by
  have h1 : getcodeval d k "Count" =
      match row.get? ic with
      | none => .error .indexError
      | some f => .ok f := by
    unfold getcodeval
    rw [hic, hl]
  show (getcodeval d k "Count").bind pyInt = _
  rw [h1]
  cases row.get? ic <;> rfl

theorem gCount_congr (d1 d2 : DccFile) (k : String) (hlab : d2.codelabs = d1.codelabs)
    (hlook : alookup d2.codesum k = alookup d1.codesum k) : gCount d2 k = gCount d1 k := by
  unfold gCount getcodeval
  rw [hlab, hlook]

theorem gCount_ok_lookup (d : DccFile) (k : String) (n : Int) (h : gCount d k = .ok n) :
    ∃ row, alookup d.codesum k = some row := by
  unfold gCount getcodeval at h
  cases hidx : idxOf? d.codelabs "Count" with
  | none => rw [hidx] at h; simp [Except.bind] at h
  | some ic =>
    rw [hidx] at h
    cases hlook : alookup d.codesum k with
    | none => rw [hlook] at h; simp [Except.bind] at h
    | some row => exact ⟨row, rfl⟩

/-! ## addcounts: fold characterisation -/


theorem add_fold_spec (ic jn : Nat) (CL : List String)
    (hic : idxOf? CL "Count" = some ic) (hjn : idxOf? CL "Name" = some jn) :
    ∀ (cbl : List (String × Int)) (acc : DccFile),
      acc.codelabs = CL →
      (keys acc.codesum).Nodup →
      (keys cbl).Nodup →
      (∀ p ∈ cbl, p.1 ∈ keys acc.codesum → ∃ n, gCount acc p.1 = .ok n) →
      ∃ acc2, exFoldl (addStep ic jn CL.length) acc cbl = .ok acc2 ∧
        acc2.header = acc.header ∧ acc2.scanattribs = acc.scanattribs ∧
        acc2.ngsattribs = acc.ngsattribs ∧ acc2.codelabs = acc.codelabs ∧
        acc2.namecol = acc.namecol ∧ acc2.countcol = acc.countcol ∧
        (keys acc2.codesum).Nodup ∧
        (∀ k, k ∈ keys acc2.codesum → k ∈ keys acc.codesum ∨ k ∈ keys cbl) ∧
        (∀ k, alookup cbl k = none → alookup acc2.codesum k = alookup acc.codesum k) ∧
        (∀ k m, alookup cbl k = some m →
          (∀ v, gCount acc k = .ok v → gCount acc2 k = .ok (v + m)) ∧
          (k ∉ keys acc.codesum → gCount acc2 k = .ok m)) := by
  intro cbl
  induction cbl with
  | nil =>
    intro acc hCL hnd _ _
    refine ⟨acc, rfl, rfl, rfl, rfl, rfl, rfl, rfl, hnd, fun k hk => Or.inl hk,
      fun k _ => rfl, fun k m hm => by simp [alookup] at hm⟩
  | cons p rest ih =>
    intro acc hCL hnd hndc hgood
    obtain ⟨k0, m0⟩ := p
    rw [keys_cons] at hndc
    have hk0rest : k0 ∉ keys rest := (List.nodup_cons.mp hndc).1
    have hndrest : (keys rest).Nodup := (List.nodup_cons.mp hndc).2
    by_cases hmem : k0 ∈ keys acc.codesum
    · -- analyte already present: update its Count cell in place
      have hc : (keys acc.codesum).contains k0 = true := by simpa using hmem
      obtain ⟨v0, hv0⟩ := hgood (k0, m0) (List.mem_cons_self _ _) hmem
      obtain ⟨row, hrow⟩ := gCount_ok_lookup acc k0 v0 hv0
      have hicacc : idxOf? acc.codelabs "Count" = some ic := by rw [hCL]; exact hic
      have hv0e := hv0
      rw [gCount_some acc ic hicacc k0 row hrow] at hv0e
      cases hgf : row.get? ic with
      | none => rw [hgf] at hv0e; simp at hv0e
      | some f =>
        rw [hgf] at hv0e
        have hlt : ic < row.length := by
          obtain ⟨hl, _⟩ := List.get?_eq_some.mp hgf
          exact hl
        have hstep : addStep ic jn CL.length acc (k0, m0) =
            .ok { acc with codesum := aset acc.codesum k0 (row.set ic (.i (v0 + m0))) } := by
          simp only [addStep, hc, if_true, hv0, Except.bind, hrow, setIdx,
            if_pos hlt, Except.map]
        set acc1 : DccFile :=
          { acc with codesum := aset acc.codesum k0 (row.set ic (.i (v0 + m0))) } with hacc1
        have hkeys1 : keys acc1.codesum = keys acc.codesum := keys_aset_of_mem _ _ _ hmem
        have hlook1_ne : ∀ k, k ≠ k0 → alookup acc1.codesum k = alookup acc.codesum k :=
          fun k hk => alookup_aset_ne _ _ _ _ hk
        have hgood1 : ∀ q ∈ rest, q.1 ∈ keys acc1.codesum → ∃ n, gCount acc1 q.1 = .ok n := by
          intro q hq hq1
          have hne : q.1 ≠ k0 := by
            intro hh
            exact hk0rest (hh ▸ mem_keys_of_mem hq)
          rw [gCount_congr acc acc1 q.1 (by rw [hacc1]) (hlook1_ne q.1 hne)]
          exact hgood q (List.mem_cons_of_mem _ hq) (hkeys1 ▸ hq1)
        obtain ⟨acc2, hfold, hh1, hh2, hh3, hh4, hh5, hh6, hh7, hh8, hh9, hh10⟩ :=
          ih acc1 (by rw [hacc1, hCL]) (hkeys1 ▸ hnd) hndrest hgood1
        refine ⟨acc2, ?_, ?_, ?_, ?_, ?_, ?_, ?_, hh7, ?_, ?_, ?_⟩
        · rw [exFoldl, hstep]
          simpa [Except.bind] using hfold
        · rw [hh1, hacc1]
        · rw [hh2, hacc1]
        · rw [hh3, hacc1]
        · rw [hh4, hacc1]
        · rw [hh5, hacc1]
        · rw [hh6, hacc1]
        · intro k hk
          rcases hh8 k hk with h1 | h2
          · exact Or.inl (hkeys1 ▸ h1)
          · exact Or.inr (by rw [keys_cons]; exact List.mem_cons_of_mem _ h2)
        · intro k hk
          by_cases hkk : k0 = k
          · simp [alookup, hkk] at hk
          · simp only [alookup, if_neg hkk] at hk
            rw [hh9 k hk]
            exact hlook1_ne k (fun hh => hkk hh.symm)
        · intro k m hk
          by_cases hkk : k0 = k
          · subst hkk
            have hm : m = m0 := by
              rw [alookup, if_pos rfl] at hk
              exact (Option.some.inj hk).symm
            subst hm
            have hrestnone : alookup rest k0 = none := (alookup_eq_none_iff _ _).mpr hk0rest
            have hlookfin : alookup acc2.codesum k0 = alookup acc1.codesum k0 :=
              hh9 k0 hrestnone
            have hlook1 : alookup acc1.codesum k0 = some (row.set ic (.i (v0 + m))) := by
              rw [hacc1]
              exact alookup_aset_self _ _ _
            have hg2 : gCount acc2 k0 = .ok (v0 + m) := by
              have hic2 : idxOf? acc2.codelabs "Count" = some ic := by
                rw [hh4, hacc1, hCL]; exact hic
              rw [gCount_some acc2 ic hic2 k0 _ (hlookfin.trans hlook1),
                get?_set_self _ _ _ hlt]
              rfl
            constructor
            · intro v hv
              have hveq : v = v0 := by
                rw [hv0] at hv
                exact (Except.ok.inj hv).symm
              rw [hveq]
              exact hg2
            · intro habs
              exact absurd hmem habs
          · simp only [alookup, if_neg hkk] at hk
            obtain ⟨hA, hB⟩ := hh10 k m hk
            constructor
            · intro v hv
              refine hA v ?_
              rw [gCount_congr acc acc1 k (by rw [hacc1]) (hlook1_ne k (fun hh => hkk hh.symm))]
              exact hv
            · intro hnotin
              exact hB (fun hh => hnotin (hkeys1 ▸ hh))
    · -- new analyte: append a fresh row with blank cells
      have hc : (keys acc.codesum).contains k0 = false := by
        simpa using hmem
      have hjnlt : jn < CL.length := idxOf?_lt_length _ _ _ hjn
      have hiclt : ic < CL.length := idxOf?_lt_length _ _ _ hic
      have hlen1 : (List.replicate CL.length (Fld.s "")).length = CL.length := by simp
      have hlen2 : ((List.replicate CL.length (Fld.s "")).set jn (.s k0)).length = CL.length := by
        simp
      have hstep : addStep ic jn CL.length acc (k0, m0) =
          .ok { acc with codesum := acc.codesum ++
                [(k0, ((List.replicate CL.length (Fld.s "")).set jn (.s k0)).set ic (.i m0))] } := by
        rw [addStep]
        rw [show ((keys acc.codesum).contains (k0, m0).1) = false from hc]
        simp only [Bool.false_eq_true, if_false, setIdx, hlen1, if_pos hjnlt,
          Except.bind, hlen2, if_pos hiclt, Except.map]
      set row2 : List Fld :=
        ((List.replicate CL.length (Fld.s "")).set jn (.s k0)).set ic (.i m0) with hrow2
      set acc1 : DccFile := { acc with codesum := acc.codesum ++ [(k0, row2)] } with hacc1
      have hkeys1 : keys acc1.codesum = keys acc.codesum ++ [k0] := by
        rw [hacc1]
        show keys (acc.codesum ++ [(k0, row2)]) = _
        rw [keys_append]
        rfl
      have hlook1_ne : ∀ k, k ≠ k0 → alookup acc1.codesum k = alookup acc.codesum k := by
        intro k hk
        rw [hacc1]
        exact alookup_append_single_ne _ _ _ _ hk
      have hnd1 : (keys acc1.codesum).Nodup := by
        rw [hkeys1]
        exact hnd.append (List.nodup_singleton k0)
          (fun a ha hb => by rw [List.mem_singleton] at hb; subst hb; exact hmem ha)
      have hgood1 : ∀ q ∈ rest, q.1 ∈ keys acc1.codesum → ∃ n, gCount acc1 q.1 = .ok n := by
        intro q hq hq1
        have hne : q.1 ≠ k0 := by
          intro hh
          exact hk0rest (hh ▸ mem_keys_of_mem hq)
        have hq2 : q.1 ∈ keys acc.codesum := by
          rw [hkeys1] at hq1
          rcases List.mem_append.mp hq1 with h1 | h2
          · exact h1
          · rw [List.mem_singleton] at h2
            exact absurd h2 hne
        rw [gCount_congr acc acc1 q.1 (by rw [hacc1]) (hlook1_ne q.1 hne)]
        exact hgood q (List.mem_cons_of_mem _ hq) hq2
      obtain ⟨acc2, hfold, hh1, hh2, hh3, hh4, hh5, hh6, hh7, hh8, hh9, hh10⟩ :=
        ih acc1 (by rw [hacc1, hCL]) hnd1 hndrest hgood1
      refine ⟨acc2, ?_, ?_, ?_, ?_, ?_, ?_, ?_, hh7, ?_, ?_, ?_⟩
      · rw [exFoldl, hstep]
        simpa [Except.bind] using hfold
      · rw [hh1, hacc1]
      · rw [hh2, hacc1]
      · rw [hh3, hacc1]
      · rw [hh4, hacc1]
      · rw [hh5, hacc1]
      · rw [hh6, hacc1]
      · intro k hk
        rcases hh8 k hk with h1 | h2
        · rw [hkeys1] at h1
          rcases List.mem_append.mp h1 with ha | hb
          · exact Or.inl ha
          · rw [List.mem_singleton] at hb
            subst hb
            exact Or.inr (by rw [keys_cons]; exact List.mem_cons_self _ _)
        · exact Or.inr (by rw [keys_cons]; exact List.mem_cons_of_mem _ h2)
      · intro k hk
        by_cases hkk : k0 = k
        · simp [alookup, hkk] at hk
        · simp only [alookup, if_neg hkk] at hk
          rw [hh9 k hk]
          exact hlook1_ne k (fun hh => hkk hh.symm)
      · intro k m hk
        by_cases hkk : k0 = k
        · subst hkk
          have hm : m = m0 := by
            rw [alookup, if_pos rfl] at hk
            exact (Option.some.inj hk).symm
          subst hm
          have hrestnone : alookup rest k0 = none := (alookup_eq_none_iff _ _).mpr hk0rest
          have hlookfin : alookup acc2.codesum k0 = alookup acc1.codesum k0 :=
            hh9 k0 hrestnone
          have hlook1 : alookup acc1.codesum k0 = some row2 := by
            rw [hacc1]
            show alookup (acc.codesum ++ [(k0, row2)]) k0 = some row2
            rw [alookup_append, (alookup_eq_none_iff _ _).mpr hmem]
            simp [alookup]
          have hg2 : gCount acc2 k0 = .ok m := by
            have hic2 : idxOf? acc2.codelabs "Count" = some ic := by
              rw [hh4, hacc1, hCL]; exact hic
            rw [gCount_some acc2 ic hic2 k0 _ (hlookfin.trans hlook1), hrow2,
              get?_set_self _ _ _ (by rw [hlen2]; exact hiclt)]
            rfl
          constructor
          · intro v hv
            exfalso
            rw [gCount_none acc ic (by rw [hCL]; exact hic) k0
              ((alookup_eq_none_iff _ _).mpr hmem)] at hv
            exact Except.noConfusion hv
          · intro _
            exact hg2
        · simp only [alookup, if_neg hkk] at hk
          obtain ⟨hA, hB⟩ := hh10 k m hk
          constructor
          · intro v hv
            refine hA v ?_
            rw [gCount_congr acc acc1 k (by rw [hacc1]) (hlook1_ne k (fun hh => hkk hh.symm))]
            exact hv
          · intro hnotin
            refine hB ?_
            intro hh
            rw [hkeys1] at hh
            rcases List.mem_append.mp hh with ha | hb
            · exact hnotin ha
            · rw [List.mem_singleton] at hb
              exact hkk hb.symm

end DSP

namespace DSP

/-! ## Claim C6: addcounts frame -/

theorem addStep_frame (ic jn L : Nat) (acc : DccFile) (p : String × Int) (acc2 : DccFile)
    (h : addStep ic jn L acc p = .ok acc2) :
    acc2.header = acc.header ∧ acc2.scanattribs = acc.scanattribs ∧
    acc2.ngsattribs = acc.ngsattribs ∧ acc2.codelabs = acc.codelabs ∧
    acc2.namecol = acc.namecol ∧ acc2.countcol = acc.countcol := by
  unfold addStep at h
  by_cases hc : (keys acc.codesum).contains p.1 = true
  · rw [if_pos hc] at h
    cases hg : gCount acc p.1 with
    | error e => rw [hg] at h; exact Except.noConfusion h
    | ok n =>
      rw [hg] at h
      simp only [Except.bind] at h
      cases hl : alookup acc.codesum p.1 with
      | none => rw [hl] at h; exact Except.noConfusion h
      | some row =>
        rw [hl] at h
        simp only [setIdx] at h
        by_cases hlt : ic < row.length
        · rw [if_pos hlt] at h
          simp only [Except.map] at h
          cases h
          exact ⟨rfl, rfl, rfl, rfl, rfl, rfl⟩
        · rw [if_neg hlt] at h
          simp only [Except.map] at h
          exact Except.noConfusion h
  · rw [if_neg hc] at h
    simp only [setIdx] at h
    by_cases h1 : jn < (List.replicate L (Fld.s "")).length
    · rw [if_pos h1] at h
      simp only [Except.bind] at h
      by_cases h2 : ic < ((List.replicate L (Fld.s "")).set jn (.s p.1)).length
      · rw [if_pos h2] at h
        simp only [Except.map] at h
        cases h
        exact ⟨rfl, rfl, rfl, rfl, rfl, rfl⟩
      · rw [if_neg h2] at h
        simp only [Except.map] at h
        exact Except.noConfusion h
    · rw [if_neg h1] at h
      simp only [Except.bind] at h
      exact Except.noConfusion h

theorem add_fold_frame (ic jn L : Nat) (cbl : List (String × Int)) :
    ∀ acc acc2 : DccFile, exFoldl (addStep ic jn L) acc cbl = .ok acc2 →
      acc2.header = acc.header ∧ acc2.scanattribs = acc.scanattribs ∧
      acc2.ngsattribs = acc.ngsattribs ∧ acc2.codelabs = acc.codelabs ∧
      acc2.namecol = acc.namecol ∧ acc2.countcol = acc.countcol := by
  induction cbl with
  | nil =>
    intro acc acc2 h
    rw [exFoldl] at h
    cases h
    exact ⟨rfl, rfl, rfl, rfl, rfl, rfl⟩
  | cons p rest ih =>
    intro acc acc2 h
    rw [exFoldl] at h
    cases hstep : addStep ic jn L acc p with
    | error e => rw [hstep] at h; exact Except.noConfusion h
    | ok acc1 =>
      rw [hstep] at h
      obtain ⟨a1, a2, a3, a4, a5, a6⟩ := addStep_frame ic jn L acc p acc1 hstep
      obtain ⟨b1, b2, b3, b4, b5, b6⟩ := ih acc1 acc2 h
      exact ⟨b1.trans a1, b2.trans a2, b3.trans a3, b4.trans a4, b5.trans a5, b6.trans a6⟩

/-- Claim C6: a successful `addcounts` changes at most the receiver's analyte
table: its header, scan attributes, processing attributes, column labels and
name/count column indices are unchanged (and, the merge being a pure
function of both arguments here, the argument is untouched). -/
theorem addcounts_frame (a b a2 : DccFile) (h : addcounts a b = .ok a2) :
    a2.header = a.header ∧ a2.scanattribs = a.scanattribs ∧
    a2.ngsattribs = a.ngsattribs ∧ a2.codelabs = a.codelabs ∧
    a2.namecol = a.namecol ∧ a2.countcol = a.countcol := by
  unfold addcounts at h
  cases hic : idxOf? a.codelabs "Count" with
  | none => rw [hic] at h; exact Except.noConfusion h
  | some ic =>
    rw [hic] at h
    cases hjn : idxOf? a.codelabs "Name" with
    | none => rw [hjn] at h; exact Except.noConfusion h
    | some jn =>
      rw [hjn] at h
      cases hcb : analytecounts b with
      | error e => rw [hcb] at h; exact Except.noConfusion h
      | ok cb =>
        rw [hcb] at h
        exact add_fold_frame ic jn a.codelabs.length cb a a2 h

/-- Witness for C6 at a concrete pair of CountFiles. -/
theorem addcounts_frame_witness :
    addcounts exA exB = .ok exAB ∧ exAB.header = exA.header ∧
    exAB.scanattribs = exA.scanattribs ∧ exAB.ngsattribs = exA.ngsattribs ∧
    exAB.codelabs = exA.codelabs ∧ exAB.namecol = exA.namecol ∧
    exAB.countcol = exA.countcol := by
  refine ⟨by decide, ?_, ?_, ?_, ?_, ?_, ?_⟩
  · exact (addcounts_frame exA exB exAB (by decide)).1
  · exact (addcounts_frame exA exB exAB (by decide)).2.1
  · exact (addcounts_frame exA exB exAB (by decide)).2.2.1
  · exact (addcounts_frame exA exB exAB (by decide)).2.2.2.1
  · exact (addcounts_frame exA exB exAB (by decide)).2.2.2.2.1
  · exact (addcounts_frame exA exB exAB (by decide)).2.2.2.2.2

end DSP

namespace DSP

/-! ## Claim C5: addcounts commutative totals -/

/-- Claim C5: for CountFiles with integer counts, merging either way yields
the same totals on analytes present in both files (the sum of the two
counts), and an analyte present only in the argument appears in the merged
receiver with exactly the argument's count. -/
theorem addcounts_commutative_totals (a b : DccFile) (ca cb : List (String × Int))
    (ia ja ib jb : Nat)
    (hica : idxOf? a.codelabs "Count" = some ia) (hjna : idxOf? a.codelabs "Name" = some ja)
    (hicb : idxOf? b.codelabs "Count" = some ib) (hjnb : idxOf? b.codelabs "Name" = some jb)
    (hnda : (keys a.codesum).Nodup) (hndb : (keys b.codesum).Nodup)
    (hca : analytecounts a = .ok ca) (hcb : analytecounts b = .ok cb) :
    ∃ a2 b2 ca2 cb2,
      addcounts a b = .ok a2 ∧ addcounts b a = .ok b2 ∧
      analytecounts a2 = .ok ca2 ∧ analytecounts b2 = .ok cb2 ∧
      (∀ k va vb, alookup ca k = some va → alookup cb k = some vb →
        alookup ca2 k = some (va + vb) ∧ alookup cb2 k = some (va + vb)) ∧
      (∀ k vb, alookup ca k = none → alookup cb k = some vb →
        alookup ca2 k = some vb) := by
  obtain ⟨hkeysa, hnonea, hsomea⟩ := exMapM_keyed_spec (gCount a) a.codesum ca hca
  obtain ⟨hkeysb, hnoneb, hsomeb⟩ := exMapM_keyed_spec (gCount b) b.codesum cb hcb
  have hato : ∀ k va, alookup ca k = some va →
      ∃ row, alookup a.codesum k = some row ∧ gCount a k = .ok va := by
    intro k va hk
    cases hrow : alookup a.codesum k with
    | none => rw [hnonea k hrow] at hk; exact Option.noConfusion hk
    | some row =>
      obtain ⟨n, hgn, hlk⟩ := hsomea k row hrow
      rw [hlk] at hk
      obtain rfl : n = va := Option.some.inj hk
      exact ⟨row, rfl, hgn⟩
  have hbto : ∀ k vb, alookup cb k = some vb →
      ∃ row, alookup b.codesum k = some row ∧ gCount b k = .ok vb := by
    intro k vb hk
    cases hrow : alookup b.codesum k with
    | none => rw [hnoneb k hrow] at hk; exact Option.noConfusion hk
    | some row =>
      obtain ⟨n, hgn, hlk⟩ := hsomeb k row hrow
      rw [hlk] at hk
      obtain rfl : n = vb := Option.some.inj hk
      exact ⟨row, rfl, hgn⟩
  have hanone : ∀ k, alookup ca k = none → alookup a.codesum k = none := by
    intro k hk
    cases hrow : alookup a.codesum k with
    | none => rfl
    | some row =>
      obtain ⟨n, _, hlk⟩ := hsomea k row hrow
      rw [hlk] at hk
      exact Option.noConfusion hk
  have hgooda : ∀ p ∈ cb, p.1 ∈ keys a.codesum → ∃ n, gCount a p.1 = .ok n := by
    intro p _ hmem
    cases hrow : alookup a.codesum p.1 with
    | none => exact absurd ((alookup_eq_none_iff _ _).mp hrow) (by simpa using hmem)
    | some row =>
      obtain ⟨n, hgn, _⟩ := hsomea p.1 row hrow
      exact ⟨n, hgn⟩
  have hgoodb : ∀ p ∈ ca, p.1 ∈ keys b.codesum → ∃ n, gCount b p.1 = .ok n := by
    intro p _ hmem
    cases hrow : alookup b.codesum p.1 with
    | none => exact absurd ((alookup_eq_none_iff _ _).mp hrow) (by simpa using hmem)
    | some row =>
      obtain ⟨n, hgn, _⟩ := hsomeb p.1 row hrow
      exact ⟨n, hgn⟩
  obtain ⟨a2, hfolda, fa1, fa2, fa3, fa4, fa5, fa6, fnda, fsuba, fnonea, fupda⟩ :=
    add_fold_spec ia ja a.codelabs hica hjna cb a rfl hnda (hkeysb ▸ hndb) hgooda
  obtain ⟨b2, hfoldb, fb1, fb2, fb3, fb4, fb5, fb6, fndb, fsubb, fnoneb, fupdb⟩ :=
    add_fold_spec ib jb b.codelabs hicb hjnb ca b rfl hndb (hkeysa ▸ hnda) hgoodb
  have haddab : addcounts a b = .ok a2 := by
    unfold addcounts
    rw [hica, hjna, hcb]
    exact hfolda
  have haddba : addcounts b a = .ok b2 := by
    unfold addcounts
    rw [hicb, hjnb, hca]
    exact hfoldb
  have hgood2a : ∀ kv ∈ a2.codesum, ∃ n, gCount a2 kv.1 = .ok n := by
    intro kv hkv
    have hkmem : kv.1 ∈ keys a2.codesum := mem_keys_of_mem hkv
    by_cases hc : kv.1 ∈ keys cb
    · cases hlk : alookup cb kv.1 with
      | none => exact absurd ((alookup_eq_none_iff _ _).mp hlk) (by simpa using hc)
      | some m =>
        obtain ⟨hupd, hnew⟩ := fupda kv.1 m hlk
        by_cases hmem2 : kv.1 ∈ keys a.codesum
        · cases hrow : alookup a.codesum kv.1 with
          | none => exact absurd ((alookup_eq_none_iff _ _).mp hrow) (by simpa using hmem2)
          | some row =>
            obtain ⟨n, hgn, _⟩ := hsomea kv.1 row hrow
            exact ⟨n + m, hupd n hgn⟩
        · exact ⟨m, hnew hmem2⟩
    · have hlk : alookup cb kv.1 = none := (alookup_eq_none_iff _ _).mpr hc
      have heq : alookup a2.codesum kv.1 = alookup a.codesum kv.1 := fnonea kv.1 hlk
      rcases fsuba kv.1 hkmem with hA | hB
      · cases hrow : alookup a.codesum kv.1 with
        | none => exact absurd ((alookup_eq_none_iff _ _).mp hrow) (by simpa using hA)
        | some row =>
          obtain ⟨n, hgn, _⟩ := hsomea kv.1 row hrow
          refine ⟨n, ?_⟩
          rw [gCount_congr a a2 kv.1 fa4 heq]
          exact hgn
      · exact absurd hB hc
  have hgood2b : ∀ kv ∈ b2.codesum, ∃ n, gCount b2 kv.1 = .ok n := by
    intro kv hkv
    have hkmem : kv.1 ∈ keys b2.codesum := mem_keys_of_mem hkv
    by_cases hc : kv.1 ∈ keys ca
    · cases hlk : alookup ca kv.1 with
      | none => exact absurd ((alookup_eq_none_iff _ _).mp hlk) (by simpa using hc)
      | some m =>
        obtain ⟨hupd, hnew⟩ := fupdb kv.1 m hlk
        by_cases hmem2 : kv.1 ∈ keys b.codesum
        · cases hrow : alookup b.codesum kv.1 with
          | none => exact absurd ((alookup_eq_none_iff _ _).mp hrow) (by simpa using hmem2)
          | some row =>
            obtain ⟨n, hgn, _⟩ := hsomeb kv.1 row hrow
            exact ⟨n + m, hupd n hgn⟩
        · exact ⟨m, hnew hmem2⟩
    · have hlk : alookup ca kv.1 = none := (alookup_eq_none_iff _ _).mpr hc
      have heq : alookup b2.codesum kv.1 = alookup b.codesum kv.1 := fnoneb kv.1 hlk
      rcases fsubb kv.1 hkmem with hA | hB
      · cases hrow : alookup b.codesum kv.1 with
        | none => exact absurd ((alookup_eq_none_iff _ _).mp hrow) (by simpa using hA)
        | some row =>
          obtain ⟨n, hgn, _⟩ := hsomeb kv.1 row hrow
          refine ⟨n, ?_⟩
          rw [gCount_congr b b2 kv.1 fb4 heq]
          exact hgn
      · exact absurd hB hc
  obtain ⟨ca2, hca2⟩ := exMapM_ok_of
    (fun kv => (gCount a2 kv.1).map (fun n => (kv.1, n))) a2.codesum
    (fun kv hkv => by
      obtain ⟨n, hn⟩ := hgood2a kv hkv
      exact ⟨(kv.1, n), by simp [hn, Except.map]⟩)
  obtain ⟨cb2, hcb2⟩ := exMapM_ok_of
    (fun kv => (gCount b2 kv.1).map (fun n => (kv.1, n))) b2.codesum
    (fun kv hkv => by
      obtain ⟨n, hn⟩ := hgood2b kv hkv
      exact ⟨(kv.1, n), by simp [hn, Except.map]⟩)
  obtain ⟨hkeysa2, hnonea2, hsomea2⟩ := exMapM_keyed_spec (gCount a2) a2.codesum ca2 hca2
  obtain ⟨hkeysb2, hnoneb2, hsomeb2⟩ := exMapM_keyed_spec (gCount b2) b2.codesum cb2 hcb2
  have hlkfin : ∀ (d2 : DccFile) (cd2 : List (String × Int))
      (hspec : ∀ k row, alookup d2.codesum k = some row →
        ∃ n, gCount d2 k = .ok n ∧ alookup cd2 k = some n)
      (k : String) (n : Int), gCount d2 k = .ok n → alookup cd2 k = some n := by
    intro d2 cd2 hspec k n hg
    obtain ⟨row2, hrow2⟩ := gCount_ok_lookup d2 k n hg
    obtain ⟨n2, hgn2, hlkn2⟩ := hspec k row2 hrow2
    rw [hg] at hgn2
    cases hgn2
    exact hlkn2
  refine ⟨a2, b2, ca2, cb2, haddab, haddba, hca2, hcb2, ?_, ?_⟩
  · intro k va vb hka hkb
    obtain ⟨rowa, hrowa, hgva⟩ := hato k va hka
    obtain ⟨rowb, hrowb, hgvb⟩ := hbto k vb hkb
    obtain ⟨hupda, _⟩ := fupda k vb hkb
    obtain ⟨hupdb, _⟩ := fupdb k va hka
    have hg2a : gCount a2 k = .ok (va + vb) := hupda va hgva
    have hg2b : gCount b2 k = .ok (vb + va) := hupdb vb hgvb
    refine ⟨hlkfin a2 ca2 hsomea2 k _ hg2a, ?_⟩
    have := hlkfin b2 cb2 hsomeb2 k _ hg2b
    rw [Int.add_comm vb va] at this
    exact this
  · intro k vb hka hkb
    have hmemA : k ∉ keys a.codesum := (alookup_eq_none_iff _ _).mp (hanone k hka)
    obtain ⟨_, hnew⟩ := fupda k vb hkb
    exact hlkfin a2 ca2 hsomea2 k vb (hnew hmemA)

/-- Witness for C5 at a concrete pair of CountFiles. -/
theorem addcounts_commutative_totals_witness :
    analytecounts exA = .ok [("TUBB", 7), ("GAPDH", 2)] ∧
    analytecounts exB = .ok [("TUBB", 5), ("ACTB", 3)] ∧
    ∃ a2 b2 ca2 cb2,
      addcounts exA exB = .ok a2 ∧ addcounts exB exA = .ok b2 ∧
      analytecounts a2 = .ok ca2 ∧ analytecounts b2 = .ok cb2 ∧
      (∀ k va vb, alookup [("TUBB", 7), ("GAPDH", 2)] k = some va →
        alookup [("TUBB", 5), ("ACTB", 3)] k = some vb →
        alookup ca2 k = some (va + vb) ∧ alookup cb2 k = some (va + vb)) ∧
      (∀ k vb, alookup ([("TUBB", 7), ("GAPDH", 2)] : List (String × Int)) k = none →
        alookup [("TUBB", 5), ("ACTB", 3)] k = some vb →
        alookup ca2 k = some vb) :=
  ⟨by decide, by decide,
    addcounts_commutative_totals exA exB [("TUBB", 7), ("GAPDH", 2)]
      [("TUBB", 5), ("ACTB", 3)] 2 0 1 0
      (by decide) (by decide) (by decide) (by decide) (by decide) (by decide)
      (by decide) (by decide)⟩

end DSP

namespace DSP

/-! ## Split / join lemmas -/

theorem mk_data (s : String) : String.mk s.data = s := by
  cases s
  rfl

theorem splitChar_ne_nil (c : Char) (l : List Char) : splitChar c l ≠ [] := by
  induction l with
  | nil => simp [splitChar]
  | cons x xs ih =>
    by_cases hx : x = c
    · simp [splitChar, hx]
    · rw [splitChar, if_neg hx]
      cases hs : splitChar c xs with
      | nil => simp
      | cons p ps => simp

theorem splitChar_no_sep (c : Char) (a : List Char) (h : c ∉ a) :
    splitChar c a = [a] := by
  induction a with
  | nil => rfl
  | cons x xs ih =>
    have hx : x ≠ c := fun hh => h (hh ▸ List.mem_cons_self x xs)
    have hxs : c ∉ xs := fun hh => h (List.mem_cons_of_mem x hh)
    rw [splitChar, if_neg hx, ih hxs]

theorem splitChar_append_cons (c : Char) (a b : List Char) (h : c ∉ a) :
    splitChar c (a ++ c :: b) = a :: splitChar c b := by
  induction a with
  | nil => simp [splitChar]
  | cons x xs ih =>
    have hx : x ≠ c := fun hh => h (hh ▸ List.mem_cons_self x xs)
    have hxs : c ∉ xs := fun hh => h (List.mem_cons_of_mem x hh)
    rw [List.cons_append, splitChar, if_neg hx, ih hxs]

theorem splitChar_interCS (c : Char) (parts : List (List Char)) (hne : parts ≠ [])
    (h : ∀ p ∈ parts, c ∉ p) : splitChar c (interCS [c] parts) = parts := by
  induction parts with
  | nil => exact absurd rfl hne
  | cons p ps ih =>
    cases ps with
    | nil =>
      have hin : interCS [c] [p] = p := rfl
      rw [hin]
      exact splitChar_no_sep c p (h p (List.mem_cons_self _ _))
    | cons q qs =>
      have hin : interCS [c] (p :: q :: qs) = p ++ [c] ++ interCS [c] (q :: qs) := rfl
      rw [hin]
      have hre : p ++ [c] ++ interCS [c] (q :: qs) = p ++ c :: interCS [c] (q :: qs) := by
        simp
      rw [hre, splitChar_append_cons c p _ (h p (List.mem_cons_self _ _)),
        ih (by simp) (fun x hx => h x (List.mem_cons_of_mem p hx))]

theorem joinWith_data (sep : String) (l : List String) :
    (joinWith sep l).data = interCS sep.data (l.map String.data) := by
  induction l with
  | nil => rfl
  | cons x xs ih =>
    cases xs with
    | nil => rfl
    | cons y ys =>
      have hj : joinWith sep (x :: y :: ys) = x ++ sep ++ joinWith sep (y :: ys) := rfl
      have hin : interCS sep.data ((x :: y :: ys).map String.data) =
          x.data ++ sep.data ++ interCS sep.data ((y :: ys).map String.data) := rfl
      rw [hj, hin, String.data_append, String.data_append, ih]

theorem splitStr_joinWith (fields : List String) (hne : fields ≠ [])
    (h : ∀ f ∈ fields, ',' ∉ f.data) :
    splitStr ',' (joinWith "," fields) = fields := by
  unfold splitStr
  rw [joinWith_data]
  have hdata : ("," : String).data = [','] := rfl
  rw [hdata, splitChar_interCS ',' (fields.map String.data)
    (by simpa using hne)
    (by intro p hp
        obtain ⟨f, hf, rfl⟩ := List.mem_map.mp hp
        exact h f hf)]
  rw [List.map_map]
  have : (String.mk ∘ String.data) = id := by
    funext s
    exact mk_data s
  rw [this, List.map_id]

theorem splitStr_kvLine (kv : String × String) (h1 : wfNoComma kv.1)
    (h2 : wfNoComma kv.2) : splitStr ',' (kvLine kv) = [kv.1, kv.2] := by
  have : kvLine kv = joinWith "," [kv.1, kv.2] := rfl
  rw [this]
  exact splitStr_joinWith [kv.1, kv.2] (by simp)
    (by intro f hf
        simp only [List.mem_cons, List.not_mem_nil, or_false] at hf
        rcases hf with rfl | rfl
        · exact h1
        · exact h2)

end DSP

namespace DSP

/-! ## stepLine lemmas -/

theorem step_blank (st : PState) : stepLine st "" = .ok st := rfl

theorem step_open_header (st : PState) :
    stepLine st "<Header>" = .ok { st with sect := "Header" } := rfl

theorem step_close_header (st : PState) :
    stepLine st "</Header>" = .ok { st with sect := "" } := rfl

theorem step_open_scan (st : PState) :
    stepLine st "<Scan_Attributes>" = .ok { st with sect := "Scan_Attributes" } := rfl

theorem step_close_scan (st : PState) :
    stepLine st "</Scan_Attributes>" = .ok { st with sect := "" } := rfl

theorem step_open_ngs (st : PState) :
    stepLine st "<NGS_Processing_Attributes>" =
      .ok { st with sect := "NGS_Processing_Attributes" } := rfl

theorem step_close_ngs (st : PState) :
    stepLine st "</NGS_Processing_Attributes>" = .ok { st with sect := "" } := rfl

theorem step_open_cs (st : PState) :
    stepLine st "<Code_Summary>" = .ok { st with sect := "Code_Summary" } := rfl

theorem step_close_cs (st : PState) :
    stepLine st "</Code_Summary>" = .ok { st with sect := "" } := rfl

theorem step_kv_header (st : PState) (kv : String × String) (hs : st.sect = "Header")
    (hwf : wfKV kv) :
    stepLine st (kvLine kv) =
      .ok { st with d := { st.d with header := aset st.d.header kv.1 kv.2 } } := by
  obtain ⟨h1, h2, hr, hne, hss2, hss1, hnl⟩ := hwf
  simp [stepLine, hr, hne, hss2, hss1, hs, splitStr_kvLine kv h1 h2]

theorem step_kv_scan (st : PState) (kv : String × String)
    (hs : st.sect = "Scan_Attributes") (hwf : wfKV kv) :
    stepLine st (kvLine kv) =
      .ok { st with d := { st.d with scanattribs := aset st.d.scanattribs kv.1 kv.2 } } := by
  obtain ⟨h1, h2, hr, hne, hss2, hss1, hnl⟩ := hwf
  simp [stepLine, hr, hne, hss2, hss1, hs, splitStr_kvLine kv h1 h2]

theorem step_kv_ngs (st : PState) (kv : String × String)
    (hs : st.sect = "NGS_Processing_Attributes") (hwf : wfKV kv) :
    stepLine st (kvLine kv) =
      .ok { st with d := { st.d with ngsattribs := aset st.d.ngsattribs kv.1 kv.2 } } := by
  obtain ⟨h1, h2, hr, hne, hss2, hss1, hnl⟩ := hwf
  simp [stepLine, hr, hne, hss2, hss1, hs, splitStr_kvLine kv h1 h2]

theorem step_label_old (st : PState) (labs : List String) (hs : st.sect = "Code_Summary")
    (hst : st.started = false) (ni ci : Nat)
    (hni : idxOf? labs "Name" = some ni) (hci : idxOf? labs "Count" = some ci)
    (hnc : ∀ lab ∈ labs, wfNoComma lab) (hwf : wfLine (joinWith "," labs)) :
    stepLine st (joinWith "," labs) = .ok { st with
      started := true
      d := { st.d with codelabs := labs, namecol := ni, countcol := ci } } := by
  obtain ⟨hr, hne, hss2, hss1, hnl⟩ := hwf
  have hlabs_ne : labs ≠ [] := by
    intro hh
    rw [hh] at hne
    exact hne rfl
  have hsplit : splitStr ',' (joinWith "," labs) = labs :=
    splitStr_joinWith labs hlabs_ne hnc
  simp [stepLine, hr, hne, hss2, hss1, hs, hst, hsplit, hni, hci]

theorem step_first_new (st : PState) (f0 : String) (frest : List String)
    (hs : st.sect = "Code_Summary") (hst : st.started = false)
    (hmiss : idxOf? (f0 :: frest) "Name" = none ∨ idxOf? (f0 :: frest) "Count" = none)
    (hdup : (keys st.d.codesum).contains f0 = false)
    (hnc : ∀ x ∈ f0 :: frest, wfNoComma x) (hwf : wfLine (joinWith "," (f0 :: frest))) :
    stepLine st (joinWith "," (f0 :: frest)) = .ok { st with
      started := true
      d := { st.d with
             codelabs := ["Name", "Count"]
             namecol := 0
             countcol := 1
             codesum := st.d.codesum ++ [(f0, (f0 :: frest).map Fld.s)] } } := by
  obtain ⟨hr, hne, hss2, hss1, hnl⟩ := hwf
  have hsplit : splitStr ',' (joinWith "," (f0 :: frest)) = f0 :: frest :=
    splitStr_joinWith _ (by simp) hnc
  have hdup2 : f0 ∉ keys st.d.codesum := by simpa using hdup
  cases hn : idxOf? (f0 :: frest) "Name" with
  | none =>
    cases hc : idxOf? (f0 :: frest) "Count" with
    | none => simp [stepLine, hr, hne, hss2, hss1, hs, hst, hsplit, hn, hc, hdup2]
    | some ci => simp [stepLine, hr, hne, hss2, hss1, hs, hst, hsplit, hn, hc, hdup2]
  | some ni =>
    cases hc : idxOf? (f0 :: frest) "Count" with
    | none => simp [stepLine, hr, hne, hss2, hss1, hs, hst, hsplit, hn, hc, hdup2]
    | some ci =>
      exfalso
      rcases hmiss with hm | hm
      · rw [hn] at hm; exact Option.noConfusion hm
      · rw [hc] at hm; exact Option.noConfusion hm

theorem step_row (st : PState) (fields : List String) (hs : st.sect = "Code_Summary")
    (hst : st.started = true) (nm : String)
    (hget : fields.get? st.d.namecol = some nm)
    (hdup : (keys st.d.codesum).contains nm = false)
    (hnc : ∀ x ∈ fields, wfNoComma x) (hwf : wfLine (joinWith "," fields)) :
    stepLine st (joinWith "," fields) = .ok { st with d :=
      { st.d with codesum := st.d.codesum ++ [(nm, fields.map Fld.s)] } } := by
  obtain ⟨hr, hne, hss2, hss1, hnl⟩ := hwf
  have hfields_ne : fields ≠ [] := by
    intro hh
    rw [hh] at hne
    exact hne rfl
  have hsplit : splitStr ',' (joinWith "," fields) = fields :=
    splitStr_joinWith fields hfields_ne hnc
  have hdup2 : nm ∉ keys st.d.codesum := by simpa using hdup
  have hget2 : fields[st.d.namecol]? = some nm := by
    rw [← List.get?_eq_getElem?]
    exact hget
  simp [stepLine, hr, hne, hss2, hss1, hs, hst, hsplit, hget2, hdup2]

theorem step_row_dup (st : PState) (fields : List String) (hs : st.sect = "Code_Summary")
    (hst : st.started = true) (nm : String)
    (hget : fields.get? st.d.namecol = some nm)
    (hdup : (keys st.d.codesum).contains nm = true)
    (hnc : ∀ x ∈ fields, wfNoComma x) (hwf : wfLine (joinWith "," fields)) :
    stepLine st (joinWith "," fields) =
      .error (.exception "Repeat analyte in Code_Summary") := by
  obtain ⟨hr, hne, hss2, hss1, hnl⟩ := hwf
  have hfields_ne : fields ≠ [] := by
    intro hh
    rw [hh] at hne
    exact hne rfl
  have hsplit : splitStr ',' (joinWith "," fields) = fields :=
    splitStr_joinWith fields hfields_ne hnc
  have hdup2 : nm ∈ keys st.d.codesum := by simpa using hdup
  have hget2 : fields[st.d.namecol]? = some nm := by
    rw [← List.get?_eq_getElem?]
    exact hget
  simp [stepLine, hr, hne, hss2, hss1, hs, hst, hsplit, hget2, hdup2]

end DSP

namespace DSP

/-! ## Fold lemmas over sections -/

theorem exFoldl_append {σ α : Type} (g : σ → α → Except PyErr σ) (A B : List α) :
    ∀ init : σ, exFoldl g init (A ++ B) =
      (exFoldl g init A).bind (fun st => exFoldl g st B) := by
  induction A with
  | nil =>
    intro init
    simp [exFoldl, Except.bind]
  | cons x xs ih =>
    intro init
    rw [List.cons_append, exFoldl, exFoldl]
    cases hg : g init x with
    | error e => simp [Except.bind]
    | ok st1 => simp [Except.bind, ih st1]

theorem aset_not_mem_append {α : Type} (l : List (String × α)) (k : String) (v : α)
    (h : k ∉ keys l) : aset l k v = l ++ [(k, v)] := by
  induction l with
  | nil => rfl
  | cons kv rest ih =>
    have hk : kv.1 ≠ k := by
      intro hh
      exact h (hh ▸ mem_keys_of_mem (List.mem_cons_self kv rest))
    have hr : k ∉ keys rest := by
      intro hh
      exact h (by rw [keys_cons]; exact List.mem_cons_of_mem _ hh)
    rw [aset, if_neg hk, ih hr, List.cons_append]

theorem idxOf?_eq_none_iff (l : List String) (s : String) :
    idxOf? l s = none ↔ s ∉ l := by
  induction l with
  | nil => simp [idxOf?]
  | cons x xs ih =>
    by_cases hx : x = s
    · simp [idxOf?, hx]
    · simp [idxOf?, hx, ih, Ne.symm hx]

theorem map_fldStr_s (r : List Fld) (h : ∀ f ∈ r, isStrFld f = true) :
    (r.map fldStr).map Fld.s = r := by
  induction r with
  | nil => rfl
  | cons f rest ih =>
    cases f with
    | s v =>
      rw [List.map_cons, List.map_cons, ih (fun x hx => h x (List.mem_cons_of_mem _ hx))]
      rfl
    | i n =>
      have := h (.i n) (List.mem_cons_self _ _)
      simp [isStrFld] at this

theorem fold_kv_header (kvs : List (String × String)) :
    ∀ st : PState, st.sect = "Header" →
      (∀ kv ∈ kvs, wfKV kv) →
      (keys kvs).Nodup →
      (∀ k ∈ keys kvs, k ∉ keys st.d.header) →
      exFoldl stepLine st (kvs.map kvLine) =
        .ok { st with d := { st.d with header := st.d.header ++ kvs } } := by
  induction kvs with
  | nil =>
    intro st hs _ _ _
    simp [exFoldl]
  | cons kv rest ih =>
    intro st hs hwf hnd hdis
    have hstep := step_kv_header st kv hs (hwf kv (List.mem_cons_self _ _))
    rw [List.map_cons, exFoldl, hstep]
    have hset : aset st.d.header kv.1 kv.2 = st.d.header ++ [kv] :=
      aset_not_mem_append _ _ _ (hdis kv.1 (by rw [keys_cons]; exact List.mem_cons_self _ _))
    rw [keys_cons] at hnd hdis
    have hih := ih { st with d := { st.d with header := st.d.header ++ [kv] } } hs
      (fun q hq => hwf q (List.mem_cons_of_mem _ hq))
      (List.nodup_cons.mp hnd).2
      (by
        intro k hk
        rw [keys_append]
        intro hmem
        rcases List.mem_append.mp hmem with h1 | h2
        · exact hdis k (List.mem_cons_of_mem _ hk) h1
        · have : k = kv.1 := by simpa [keys] using h2
          exact (List.nodup_cons.mp hnd).1 (this ▸ hk))
    show ((Except.ok { st with d := { st.d with header := aset st.d.header kv.1 kv.2 } }).bind
      fun st2 => exFoldl stepLine st2 (rest.map kvLine)) = _
    rw [hset]
    show exFoldl stepLine _ (rest.map kvLine) = _
    rw [hih]
    simp [List.append_assoc]

theorem fold_kv_scan (kvs : List (String × String)) :
    ∀ st : PState, st.sect = "Scan_Attributes" →
      (∀ kv ∈ kvs, wfKV kv) →
      (keys kvs).Nodup →
      (∀ k ∈ keys kvs, k ∉ keys st.d.scanattribs) →
      exFoldl stepLine st (kvs.map kvLine) =
        .ok { st with d := { st.d with scanattribs := st.d.scanattribs ++ kvs } } := by
  induction kvs with
  | nil =>
    intro st hs _ _ _
    simp [exFoldl]
  | cons kv rest ih =>
    intro st hs hwf hnd hdis
    have hstep := step_kv_scan st kv hs (hwf kv (List.mem_cons_self _ _))
    rw [List.map_cons, exFoldl, hstep]
    have hset : aset st.d.scanattribs kv.1 kv.2 = st.d.scanattribs ++ [kv] :=
      aset_not_mem_append _ _ _ (hdis kv.1 (by rw [keys_cons]; exact List.mem_cons_self _ _))
    rw [keys_cons] at hnd hdis
    have hih := ih { st with d := { st.d with scanattribs := st.d.scanattribs ++ [kv] } } hs
      (fun q hq => hwf q (List.mem_cons_of_mem _ hq))
      (List.nodup_cons.mp hnd).2
      (by
        intro k hk
        rw [keys_append]
        intro hmem
        rcases List.mem_append.mp hmem with h1 | h2
        · exact hdis k (List.mem_cons_of_mem _ hk) h1
        · have : k = kv.1 := by simpa [keys] using h2
          exact (List.nodup_cons.mp hnd).1 (this ▸ hk))
    show ((Except.ok { st with d := { st.d with scanattribs := aset st.d.scanattribs kv.1 kv.2 } }).bind
      fun st2 => exFoldl stepLine st2 (rest.map kvLine)) = _
    rw [hset]
    show exFoldl stepLine _ (rest.map kvLine) = _
    rw [hih]
    simp [List.append_assoc]

theorem fold_kv_ngs (kvs : List (String × String)) :
    ∀ st : PState, st.sect = "NGS_Processing_Attributes" →
      (∀ kv ∈ kvs, wfKV kv) →
      (keys kvs).Nodup →
      (∀ k ∈ keys kvs, k ∉ keys st.d.ngsattribs) →
      exFoldl stepLine st (kvs.map kvLine) =
        .ok { st with d := { st.d with ngsattribs := st.d.ngsattribs ++ kvs } } := by
  induction kvs with
  | nil =>
    intro st hs _ _ _
    simp [exFoldl]
  | cons kv rest ih =>
    intro st hs hwf hnd hdis
    have hstep := step_kv_ngs st kv hs (hwf kv (List.mem_cons_self _ _))
    rw [List.map_cons, exFoldl, hstep]
    have hset : aset st.d.ngsattribs kv.1 kv.2 = st.d.ngsattribs ++ [kv] :=
      aset_not_mem_append _ _ _ (hdis kv.1 (by rw [keys_cons]; exact List.mem_cons_self _ _))
    rw [keys_cons] at hnd hdis
    have hih := ih { st with d := { st.d with ngsattribs := st.d.ngsattribs ++ [kv] } } hs
      (fun q hq => hwf q (List.mem_cons_of_mem _ hq))
      (List.nodup_cons.mp hnd).2
      (by
        intro k hk
        rw [keys_append]
        intro hmem
        rcases List.mem_append.mp hmem with h1 | h2
        · exact hdis k (List.mem_cons_of_mem _ hk) h1
        · have : k = kv.1 := by simpa [keys] using h2
          exact (List.nodup_cons.mp hnd).1 (this ▸ hk))
    show ((Except.ok { st with d := { st.d with ngsattribs := aset st.d.ngsattribs kv.1 kv.2 } }).bind
      fun st2 => exFoldl stepLine st2 (rest.map kvLine)) = _
    rw [hset]
    show exFoldl stepLine _ (rest.map kvLine) = _
    rw [hih]
    simp [List.append_assoc]

theorem fold_rows (rows : List (String × List Fld)) :
    ∀ st : PState, st.sect = "Code_Summary" → st.started = true →
      (∀ kv ∈ rows, wfRowEntry st.d.namecol kv) →
      (keys st.d.codesum ++ keys rows).Nodup →
      exFoldl stepLine st (rows.map rowLine) =
        .ok { st with d := { st.d with codesum := st.d.codesum ++ rows } } := by
  induction rows with
  | nil =>
    intro st hs _ _ _
    simp [exFoldl]
  | cons kv rest ih =>
    intro st hs hst hwf hnd
    obtain ⟨hstrs, hnc, hline, hget⟩ := hwf kv (List.mem_cons_self _ _)
    have hmemno : kv.1 ∉ keys st.d.codesum := by
      obtain ⟨_, _, hdis⟩ := List.nodup_append.mp hnd
      intro hh
      exact hdis hh (by rw [keys_cons]; exact List.mem_cons_self _ _)
    have hdupb : (keys st.d.codesum).contains kv.1 = false := by simpa using hmemno
    have hstep := step_row st (rowStrs kv) hs hst kv.1 hget hdupb hnc hline
    have hmaps : (rowStrs kv).map Fld.s = kv.2 := map_fldStr_s kv.2 hstrs
    rw [List.map_cons, exFoldl]
    rw [show rowLine kv = joinWith "," (rowStrs kv) from rfl, hstep, hmaps]
    rw [keys_cons] at hnd
    have hnd2 : (keys (st.d.codesum ++ [kv]) ++ keys rest).Nodup := by
      rw [keys_append]
      have : keys st.d.codesum ++ keys [kv] ++ keys rest =
          keys st.d.codesum ++ kv.1 :: keys rest := by
        simp [keys]
      rw [this]
      exact hnd
    have hih := ih { st with d := { st.d with codesum := st.d.codesum ++ [kv] } } hs hst
      (fun q hq => hwf q (List.mem_cons_of_mem _ hq)) hnd2
    show exFoldl stepLine _ (rest.map rowLine) = _
    rw [hih]
    simp [List.append_assoc]

theorem fold_rows_dup (rows : List (List String)) :
    ∀ st : PState, st.sect = "Code_Summary" → st.started = true → st.d.namecol = 0 →
      (∀ r ∈ rows, wfFieldsRow r ∧ r ≠ []) →
      (keys st.d.codesum).Nodup →
      ¬ (keys st.d.codesum ++ rows.map (fun r => r.headI)).Nodup →
      exFoldl stepLine st (rows.map (fun r => joinWith "," r)) =
        .error (.exception "Repeat analyte in Code_Summary") := by
  induction rows with
  | nil =>
    intro st _ _ _ _ hnd hdup
    exact absurd (by simpa using hnd) hdup
  | cons r rest ih =>
    intro st hs hst hnc0 hwf hnd hdup
    obtain ⟨⟨hcells, hline⟩, hrne⟩ := hwf r (List.mem_cons_self _ _)
    cases r with
    | nil => exact absurd rfl hrne
    | cons f0 frest =>
      have hget : (f0 :: frest).get? st.d.namecol = some f0 := by
        rw [hnc0]
        rfl
      rw [List.map_cons, exFoldl]
      by_cases hmem : f0 ∈ keys st.d.codesum
      · have hdupb : (keys st.d.codesum).contains f0 = true := by simpa using hmem
        rw [step_row_dup st (f0 :: frest) hs hst f0 hget hdupb hcells hline]
        rfl
      · have hdupb : (keys st.d.codesum).contains f0 = false := by simpa using hmem
        rw [step_row st (f0 :: frest) hs hst f0 hget hdupb hcells hline]
        show exFoldl stepLine _ (rest.map (fun r => joinWith "," r)) = _
        refine ih _ hs hst hnc0 (fun q hq => hwf q (List.mem_cons_of_mem _ hq)) ?_ ?_
        · show (keys (st.d.codesum ++ [(f0, (f0 :: frest).map Fld.s)])).Nodup
          rw [keys_append]
          exact hnd.append (List.nodup_singleton _)
            (fun a ha hb => by
              rw [show keys [(f0, (f0 :: frest).map Fld.s)] = [f0] from rfl,
                List.mem_singleton] at hb
              subst hb
              exact hmem ha)
        · show ¬ (keys (st.d.codesum ++ [(f0, (f0 :: frest).map Fld.s)]) ++
            rest.map (fun r => r.headI)).Nodup
          rw [keys_append]
          intro hcon
          apply hdup
          have heq : keys st.d.codesum ++ (f0 :: frest).headI :: rest.map (fun r => r.headI) =
              keys st.d.codesum ++ keys [(f0, (f0 :: frest).map Fld.s)] ++
                rest.map (fun r => r.headI) := by
            simp [keys]
          rw [List.map_cons, heq]
          exact hcon

end DSP

namespace DSP

/-! ## Parse-path composition lemmas -/

theorem fold_open_cs (ls : List String) :
    exFoldl stepLine (⟨"", false, emptyDcc⟩ : PState) ("<Code_Summary>" :: ls) =
      exFoldl stepLine ⟨"Code_Summary", false, emptyDcc⟩ ls := by
  rw [exFoldl, step_open_cs]
  rfl

theorem fold_end_cs (st : PState) :
    exFoldl stepLine st ["</Code_Summary>", ""] = .ok { st with sect := "" } := rfl

/-! ## Claim C3 -/

/-- Claim C3: a Code_Summary section containing two data rows with the same
Name-column value makes parsing fail with the fatal "Repeat analyte" error,
under both the labelled (old) and unlabelled (new) schema variants. -/
theorem parse_duplicate_fatal (rows : List (List String))
    (hwf : ∀ r ∈ rows, wfFieldsRow r ∧ r ≠ [])
    (hdup : ¬ (rows.map (fun r => r.headI)).Nodup) :
    importLines (["<Code_Summary>", "Name,Count"] ++
        rows.map (fun r => joinWith "," r) ++ ["</Code_Summary>"]) =
      .error (.exception "Repeat analyte in Code_Summary") ∧
    (∀ f0 frest tail2, rows = (f0 :: frest) :: tail2 →
      (idxOf? (f0 :: frest) "Name" = none ∨ idxOf? (f0 :: frest) "Count" = none) →
      importLines (["<Code_Summary>"] ++ rows.map (fun r => joinWith "," r) ++
          ["</Code_Summary>"]) =
        .error (.exception "Repeat analyte in Code_Summary")) := by
  constructor
  · have hlines : ["<Code_Summary>", "Name,Count"] ++
        rows.map (fun r => joinWith "," r) ++ ["</Code_Summary>"] =
        "<Code_Summary>" :: "Name,Count" ::
          (rows.map (fun r => joinWith "," r) ++ ["</Code_Summary>"]) := by
      simp
    have hmain : exFoldl stepLine (⟨"", false, emptyDcc⟩ : PState)
        ("<Code_Summary>" :: "Name,Count" ::
          (rows.map (fun r => joinWith "," r) ++ ["</Code_Summary>"])) =
        .error (.exception "Repeat analyte in Code_Summary") := by
      rw [fold_open_cs, exFoldl,
        show ("Name,Count" : String) = joinWith "," ["Name", "Count"] from rfl,
        step_label_old _ ["Name", "Count"] rfl rfl 0 1 (by decide) (by decide)
          (by decide) (by decide)]
      show exFoldl stepLine
        (⟨"Code_Summary", true, ⟨[], [], [], ["Name", "Count"], [], 1, 0⟩⟩ : PState) _ = _
      rw [exFoldl_append,
        fold_rows_dup rows _ rfl rfl rfl hwf (by decide) (by simpa using hdup)]
      rfl
    unfold importLines
    rw [hlines, hmain]
    rfl
  · intro f0 frest tail2 hrows hmiss
    subst hrows
    have hlines : ["<Code_Summary>"] ++
        ((f0 :: frest) :: tail2).map (fun r => joinWith "," r) ++ ["</Code_Summary>"] =
        "<Code_Summary>" :: joinWith "," (f0 :: frest) ::
          (tail2.map (fun r => joinWith "," r) ++ ["</Code_Summary>"]) := by
      simp
    obtain ⟨⟨hcells, hline⟩, _⟩ := hwf (f0 :: frest) (List.mem_cons_self _ _)
    have hmain : exFoldl stepLine (⟨"", false, emptyDcc⟩ : PState)
        ("<Code_Summary>" :: joinWith "," (f0 :: frest) ::
          (tail2.map (fun r => joinWith "," r) ++ ["</Code_Summary>"])) =
        .error (.exception "Repeat analyte in Code_Summary") := by
      rw [fold_open_cs, exFoldl,
        step_first_new ⟨"Code_Summary", false, emptyDcc⟩ f0 frest rfl rfl hmiss rfl
          hcells hline]
      show exFoldl stepLine
        (⟨"Code_Summary", true, ⟨[], [], [], ["Name", "Count"],
          [(f0, (f0 :: frest).map Fld.s)], 1, 0⟩⟩ : PState) _ = _
      have hkeq : keys [(f0, (f0 :: frest).map Fld.s)] ++
          tail2.map (fun r => r.headI) =
          ((f0 :: frest) :: tail2).map (fun r => r.headI) := by
        simp [keys]
      rw [exFoldl_append,
        fold_rows_dup tail2
          ⟨"Code_Summary", true, ⟨[], [], [], ["Name", "Count"],
            [(f0, (f0 :: frest).map Fld.s)], 1, 0⟩⟩ rfl rfl rfl
          (fun r hr => hwf r (List.mem_cons_of_mem _ hr))
          (by simp [keys])
          (fun hcon => hdup (hkeq ▸ hcon))]
      rfl
    unfold importLines
    rw [hlines, hmain]
    rfl

/-- Witness for C3: the analyte TUBB appears twice, in both encodings. -/
theorem parse_duplicate_fatal_witness :
    importLines ["<Code_Summary>", "Name,Count", "TUBB,5", "TUBB,7", "</Code_Summary>"] =
      .error (.exception "Repeat analyte in Code_Summary") ∧
    importLines ["<Code_Summary>", "TUBB,5", "TUBB,7", "</Code_Summary>"] =
      .error (.exception "Repeat analyte in Code_Summary") := by
  have h := parse_duplicate_fatal [["TUBB", "5"], ["TUBB", "7"]]
    (by decide) (by decide)
  constructor
  · have h1 := h.1
    simpa using h1
  · have h2 := h.2 "TUBB" ["5"] [["TUBB", "7"]] rfl (by decide)
    simpa using h2

end DSP

namespace DSP

/-! ## Claim C4 -/

/-- Claim C4: the labelled (old schema) and unlabelled (new schema) encodings
of the same logical two-column table parse to the same CountFile — in
particular with name column index 0 and count column index 1 as detected —
and hence to identical analyteCounts(); for the table `{TUBB: 120}` that
mapping is `[("TUBB", 120)]`. -/
theorem schema_variants_equivalent (rows : List (String × String))
    (hne : rows ≠ [])
    (hwf : ∀ p ∈ rows, wfNoComma p.1 ∧ wfNoComma p.2 ∧ wfLine (p.1 ++ "," ++ p.2))
    (hnd : (rows.map Prod.fst).Nodup)
    (hfirst : ∀ p ∈ rows.take 1,
      idxOf? [p.1, p.2] "Name" = none ∨ idxOf? [p.1, p.2] "Count" = none) :
    importLines (["<Code_Summary>", "Name,Count"] ++
        rows.map (fun p => p.1 ++ "," ++ p.2) ++ ["</Code_Summary>", ""]) =
      .ok ⟨[], [], [], ["Name", "Count"], rows.map pairEntry, 1, 0⟩ ∧
    importLines (["<Code_Summary>"] ++
        rows.map (fun p => p.1 ++ "," ++ p.2) ++ ["</Code_Summary>", ""]) =
      .ok ⟨[], [], [], ["Name", "Count"], rows.map pairEntry, 1, 0⟩ ∧
    (rows = [("TUBB", "120")] →
      analytecounts ⟨[], [], [], ["Name", "Count"], rows.map pairEntry, 1, 0⟩ =
        .ok [("TUBB", 120)]) := by
  have hml : rows.map (fun p => p.1 ++ "," ++ p.2) = (rows.map pairEntry).map rowLine := by
    rw [List.map_map]
    rfl
  have hwfrows : ∀ kv ∈ rows.map pairEntry, wfRowEntry 0 kv := by
    intro kv hkv
    obtain ⟨p, hp, rfl⟩ := List.mem_map.mp hkv
    obtain ⟨h1, h2, h3⟩ := hwf p hp
    refine ⟨?_, ?_, h3, rfl⟩
    · intro f hf
      rcases (by simpa [pairEntry] using hf : f = Fld.s p.1 ∨ f = Fld.s p.2) with rfl | rfl
      · rfl
      · rfl
    · intro x hx
      rcases (by simpa [pairEntry, rowStrs, fldStr] using hx :
        x = p.1 ∨ x = p.2) with rfl | rfl
      · exact h1
      · exact h2
  have hkeysrows : keys (rows.map pairEntry) = rows.map Prod.fst := by
    rw [keys, List.map_map]
    rfl
  refine ⟨?_, ?_, ?_⟩
  · have hlines : ["<Code_Summary>", "Name,Count"] ++
        rows.map (fun p => p.1 ++ "," ++ p.2) ++ ["</Code_Summary>", ""] =
        "<Code_Summary>" :: "Name,Count" ::
          ((rows.map pairEntry).map rowLine ++ ["</Code_Summary>", ""]) := by
      rw [← hml]
      simp
    unfold importLines
    rw [hlines, fold_open_cs, exFoldl,
      show ("Name,Count" : String) = joinWith "," ["Name", "Count"] from rfl,
      step_label_old ⟨"Code_Summary", false, emptyDcc⟩ ["Name", "Count"] rfl rfl 0 1
        (by decide) (by decide) (by decide) (by decide)]
    show (exFoldl stepLine
      (⟨"Code_Summary", true, ⟨[], [], [], ["Name", "Count"], [], 1, 0⟩⟩ : PState) _).map _ = _
    rw [exFoldl_append,
      fold_rows (rows.map pairEntry)
        ⟨"Code_Summary", true, ⟨[], [], [], ["Name", "Count"], [], 1, 0⟩⟩ rfl rfl
        hwfrows (by rw [keys]; simpa [hkeysrows] using hnd)]
    rfl
  · cases rows with
    | nil => exact absurd rfl hne
    | cons p0 prest =>
      obtain ⟨h1, h2, h3⟩ := hwf p0 (List.mem_cons_self _ _)
      have hmiss := hfirst p0 (by simp)
      have hlines : ["<Code_Summary>"] ++
          (p0 :: prest).map (fun p => p.1 ++ "," ++ p.2) ++ ["</Code_Summary>", ""] =
          "<Code_Summary>" :: joinWith "," [p0.1, p0.2] ::
            ((prest.map pairEntry).map rowLine ++ ["</Code_Summary>", ""]) := by
        have hml2 : prest.map (fun p => p.1 ++ "," ++ p.2) = (prest.map pairEntry).map rowLine := by
          rw [List.map_map]
          rfl
        rw [← hml2]
        simp
        rfl
      unfold importLines
      rw [hlines, fold_open_cs, exFoldl,
        step_first_new ⟨"Code_Summary", false, emptyDcc⟩ p0.1 [p0.2] rfl rfl hmiss rfl
          (by
            intro x hx
            rcases (by simpa using hx : x = p0.1 ∨ x = p0.2) with rfl | rfl
            · exact h1
            · exact h2)
          h3]
      show (exFoldl stepLine
        (⟨"Code_Summary", true, ⟨[], [], [], ["Name", "Count"],
          [(p0.1, [Fld.s p0.1, Fld.s p0.2])], 1, 0⟩⟩ : PState) _).map _ = _
      rw [exFoldl_append,
        fold_rows (prest.map pairEntry)
          ⟨"Code_Summary", true, ⟨[], [], [], ["Name", "Count"],
            [(p0.1, [Fld.s p0.1, Fld.s p0.2])], 1, 0⟩⟩ rfl rfl
          (fun kv hkv => hwfrows kv (List.mem_cons_of_mem _ (by simpa [pairEntry] using hkv)))
          (by
            show (keys [(p0.1, [Fld.s p0.1, Fld.s p0.2])] ++ keys (prest.map pairEntry)).Nodup
            have : keys [(p0.1, [Fld.s p0.1, Fld.s p0.2])] ++ keys (prest.map pairEntry) =
                (p0 :: prest).map Prod.fst := by
              have hk2 : keys (prest.map pairEntry) = prest.map Prod.fst := by
                rw [keys, List.map_map]
                rfl
              simp [keys, hk2]
              intro a b _
              rfl
            rw [this]
            exact hnd)]
      rfl
  · intro hr
    subst hr
    decide

/-- Witness for C4 at the one-row table `{TUBB: 120}`. -/
theorem schema_variants_equivalent_witness :
    importLines ["<Code_Summary>", "Name,Count", "TUBB,120", "</Code_Summary>", ""] =
      .ok ⟨[], [], [], ["Name", "Count"], [("TUBB", [.s "TUBB", .s "120"])], 1, 0⟩ ∧
    importLines ["<Code_Summary>", "TUBB,120", "</Code_Summary>", ""] =
      .ok ⟨[], [], [], ["Name", "Count"], [("TUBB", [.s "TUBB", .s "120"])], 1, 0⟩ ∧
    analytecounts ⟨[], [], [], ["Name", "Count"], [("TUBB", [.s "TUBB", .s "120"])], 1, 0⟩ =
      .ok [("TUBB", 120)] := by
  have h := schema_variants_equivalent [("TUBB", "120")] (by decide) (by decide)
    (by decide) (by decide)
  refine ⟨by simpa using h.1, by simpa using h.2.1, by simpa using h.2.2 rfl⟩

/-! ## Claim C10 -/

/-- Claim C10: a Code_Summary first line containing exactly one of the
tokens `Name` and `Count` is not a fatal error: the parser falls back to the
implicit new two-column schema (name index 0, count index 1) and stores that
very line as a data row keyed by its first field — e.g. a section starting
`Name,Total` yields an analyte literally called `Name`. -/
theorem partial_label_row_new_schema (f0 : String) (frest : List String)
    (hone : ("Name" ∈ f0 :: frest ∧ "Count" ∉ f0 :: frest) ∨
            ("Name" ∉ f0 :: frest ∧ "Count" ∈ f0 :: frest))
    (hnc : ∀ x ∈ f0 :: frest, wfNoComma x)
    (hline : wfLine (joinWith "," (f0 :: frest))) :
    importLines ["<Code_Summary>", joinWith "," (f0 :: frest), "</Code_Summary>", ""] =
      .ok ⟨[], [], [], ["Name", "Count"], [(f0, (f0 :: frest).map Fld.s)], 1, 0⟩ := by
  have hmiss : idxOf? (f0 :: frest) "Name" = none ∨
      idxOf? (f0 :: frest) "Count" = none := by
    rcases hone with ⟨_, hnotc⟩ | ⟨hnotn, _⟩
    · exact Or.inr ((idxOf?_eq_none_iff _ _).mpr hnotc)
    · exact Or.inl ((idxOf?_eq_none_iff _ _).mpr hnotn)
  unfold importLines
  rw [show (["<Code_Summary>", joinWith "," (f0 :: frest), "</Code_Summary>", ""]) =
      "<Code_Summary>" :: joinWith "," (f0 :: frest) :: ["</Code_Summary>", ""] from rfl,
    fold_open_cs, exFoldl,
    step_first_new ⟨"Code_Summary", false, emptyDcc⟩ f0 frest rfl rfl hmiss rfl hnc hline]
  rfl

/-- Witness for C10: the partial label row `Name,Total` parses with an
analyte literally named `Name`. -/
theorem partial_label_row_new_schema_witness :
    importLines ["<Code_Summary>", "Name,Total", "</Code_Summary>", ""] =
      .ok ⟨[], [], [], ["Name", "Count"], [("Name", [.s "Name", .s "Total"])], 1, 0⟩ ∧
    keys [(("Name" : String), [Fld.s "Name", Fld.s "Total"])] = ["Name"] := by
  have h := partial_label_row_new_schema "Name" ["Total"] (by decide) (by decide) (by decide)
  exact ⟨by simpa using h, rfl⟩

end DSP

namespace DSP

/-! ## String concatenation lemmas for the serializer -/

theorem strExt {a b : String} (h : a.data = b.data) : a = b := by
  cases a
  cases b
  cases h
  rfl

theorem sappend_assoc (a b c : String) : a ++ b ++ c = a ++ (b ++ c) :=
  strExt (by simp [String.data_append, List.append_assoc])

theorem joinWith_cons (sep x : String) (B : List String) (hB : B ≠ []) :
    joinWith sep (x :: B) = x ++ sep ++ joinWith sep B := by
  cases B with
  | nil => exact absurd rfl hB
  | cons y ys => rfl

theorem joinWith_append (sep : String) (A B : List String) (hA : A ≠ []) (hB : B ≠ []) :
    joinWith sep (A ++ B) = joinWith sep A ++ sep ++ joinWith sep B := by
  induction A with
  | nil => exact absurd rfl hA
  | cons a as ih =>
    cases as with
    | nil =>
      rw [List.cons_append, List.nil_append, joinWith_cons sep a B hB]
      rfl
    | cons a2 as2 =>
      rw [List.cons_append,
        joinWith_cons sep a ((a2 :: as2) ++ B) (by simp),
        ih (by simp) ]
      rw [show joinWith sep (a :: a2 :: as2) = a ++ sep ++ joinWith sep (a2 :: as2) from rfl]
      simp [sappend_assoc]

theorem piece_ne_nil (X : List String) : piece X ≠ [] := by
  unfold piece
  by_cases h : X = []
  · simp [h]
  · simp [h]

theorem join_piece (X B : List String) (hB : B ≠ []) :
    joinWith "\n" (piece X ++ B) =
      joinWith "\n" X ++ "\n" ++ joinWith "\n" B := by
  by_cases hX : X = []
  · subst hX
    rw [show piece ([] : List String) = [""] from rfl, List.cons_append, List.nil_append,
      joinWith_cons _ _ _ hB]
    rfl
  · rw [show piece X = X from by simp [piece, hX], joinWith_append _ X B hX hB]

/-! ## Serializer: row lines -/

theorem fldStrs_ok (r : List Fld) (h : ∀ f ∈ r, isStrFld f = true) :
    fldStrs r = .ok (r.map fldStr) := by
  induction r with
  | nil => rfl
  | cons f rest ih =>
    cases f with
    | s v =>
      have ihr : fldStrs rest = .ok (rest.map fldStr) :=
        ih (fun x hx => h x (List.mem_cons_of_mem _ hx))
      rw [show fldStrs (Fld.s v :: rest) =
        (Except.ok v).bind (fun y => (fldStrs rest).map (fun ys => y :: ys)) from rfl, ihr]
      rfl
    | i n =>
      have := h (.i n) (List.mem_cons_self _ _)
      simp [isStrFld] at this

theorem rows_serialize (rows : List (String × List Fld))
    (h : ∀ kv ∈ rows, ∀ f ∈ kv.2, isStrFld f = true) :
    exMapM (fun kv => (fldStrs kv.2).map (joinWith ",")) rows =
      .ok (rows.map rowLine) := by
  induction rows with
  | nil => rfl
  | cons kv rest ih =>
    rw [exMapM, fldStrs_ok kv.2 (h kv (List.mem_cons_self _ _)),
      ih (fun q hq => h q (List.mem_cons_of_mem _ hq))]
    rfl

/-- The serialized text is exactly the newline-join of `dccLines`. -/
theorem join_dccLines (d : DccFile) :
    "<Header>\n" ++ joinWith "\n" (d.header.map kvLine) ++
    "\n</Header>\n\n<Scan_Attributes>\n" ++ joinWith "\n" (d.scanattribs.map kvLine) ++
    "\n</Scan_Attributes>\n\n<NGS_Processing_Attributes>\n" ++
    joinWith "\n" (d.ngsattribs.map kvLine) ++
    "\n</NGS_Processing_Attributes>\n\n<Code_Summary>\n" ++
    joinWith "," d.codelabs ++ "\n" ++ joinWith "\n" (d.codesum.map rowLine) ++
    "\n</Code_Summary>\n" = joinWith "\n" (dccLines d) := by
  have hM5 : joinWith "\n" ["</Code_Summary>", ""] = "</Code_Summary>\n" := rfl
  have h0 : dccLines d = "<Header>" ::
      (piece (d.header.map kvLine) ++ ("</Header>" :: "" :: "<Scan_Attributes>" ::
        (piece (d.scanattribs.map kvLine) ++ ("</Scan_Attributes>" :: "" ::
          "<NGS_Processing_Attributes>" :: (piece (d.ngsattribs.map kvLine) ++
            ("</NGS_Processing_Attributes>" :: "" :: "<Code_Summary>" ::
              joinWith "," d.codelabs ::
                (piece (d.codesum.map rowLine) ++ ["</Code_Summary>", ""]))))))) := by
    simp [dccLines, List.append_assoc]
  rw [h0]
  rw [joinWith_cons _ _ _ (by
    intro hh
    exact absurd (List.append_eq_nil.mp hh).1 (piece_ne_nil _))]
  rw [join_piece _ _ (by simp)]
  rw [joinWith_cons _ "</Header>" _ (by simp),
    joinWith_cons _ "" _ (by simp),
    joinWith_cons _ "<Scan_Attributes>" _ (by
      intro hh
      exact absurd (List.append_eq_nil.mp hh).1 (piece_ne_nil _))]
  rw [join_piece _ _ (by simp)]
  rw [joinWith_cons _ "</Scan_Attributes>" _ (by simp),
    joinWith_cons _ "" _ (by simp),
    joinWith_cons _ "<NGS_Processing_Attributes>" _ (by
      intro hh
      exact absurd (List.append_eq_nil.mp hh).1 (piece_ne_nil _))]
  rw [join_piece _ _ (by simp)]
  rw [joinWith_cons _ "</NGS_Processing_Attributes>" _ (by simp),
    joinWith_cons _ "" _ (by simp),
    joinWith_cons _ "<Code_Summary>" _ (by simp),
    joinWith_cons _ (joinWith "," d.codelabs) _ (by
      intro hh
      exact absurd (List.append_eq_nil.mp hh).1 (piece_ne_nil _))]
  rw [join_piece _ _ (by simp)]
  rw [hM5]
  rw [show ("<Header>\n" : String) = "<Header>" ++ "\n" from rfl,
    show ("\n</Header>\n\n<Scan_Attributes>\n" : String) =
      "\n" ++ "</Header>" ++ "\n" ++ "" ++ "\n" ++ "<Scan_Attributes>" ++ "\n" from rfl,
    show ("\n</Scan_Attributes>\n\n<NGS_Processing_Attributes>\n" : String) =
      "\n" ++ "</Scan_Attributes>" ++ "\n" ++ "" ++ "\n" ++
        "<NGS_Processing_Attributes>" ++ "\n" from rfl,
    show ("\n</NGS_Processing_Attributes>\n\n<Code_Summary>\n" : String) =
      "\n" ++ "</NGS_Processing_Attributes>" ++ "\n" ++ "" ++ "\n" ++
        "<Code_Summary>" ++ "\n" from rfl,
    show ("\n</Code_Summary>\n" : String) = "\n" ++ "</Code_Summary>\n" from rfl]
  simp only [sappend_assoc]

/-- `__str__` succeeds on an all-string table and produces the newline-join
of `dccLines`. -/
theorem strdcc_lines (d : DccFile)
    (hrows : ∀ kv ∈ d.codesum, ∀ f ∈ kv.2, isStrFld f = true) :
    strdcc d = .ok (joinWith "\n" (dccLines d)) := by
  unfold strdcc
  rw [rows_serialize d.codesum hrows]
  exact congrArg Except.ok (join_dccLines d)

end DSP

namespace DSP

/-! ## Newline split of the serialized text -/

theorem mem_piece {s : String} {X : List String} (h : s ∈ piece X) :
    s = "" ∨ s ∈ X := by
  by_cases hX : X = []
  · subst hX
    left
    simpa [piece] using h
  · right
    simpa [piece, hX] using h

theorem split_join (L : List String) (hne : L ≠ []) (h : ∀ s ∈ L, '\n' ∉ s.data) :
    (splitChar '\n' (joinWith "\n" L).data).map String.mk = L := by
  rw [joinWith_data]
  rw [show ("\n" : String).data = ['\n'] from rfl]
  rw [splitChar_interCS '\n' (L.map String.data) (by simpa using hne)
    (by
      intro p hp
      obtain ⟨s, hs, rfl⟩ := List.mem_map.mp hp
      exact h s hs)]
  rw [List.map_map]
  have hid : (String.mk ∘ String.data) = id := by
    funext s
    exact mk_data s
  rw [hid, List.map_id]

theorem dccLines_no_nl (d : DccFile) (h : WfSerializable d) :
    ∀ s ∈ dccLines d, '\n' ∉ s.data := by
  obtain ⟨hwH, _, hwS, _, hwN, _, _, hlineL, _, _, _, hwR⟩ := h
  intro s hs
  unfold dccLines at hs
  rcases List.mem_append.mp hs with hs | hsM5
  · rcases List.mem_append.mp hs with hs | hsR
    · rcases List.mem_append.mp hs with hs | hsM4
      · rcases List.mem_append.mp hs with hs | hsN
        · rcases List.mem_append.mp hs with hs | hsM3
          · rcases List.mem_append.mp hs with hs | hsS
            · rcases List.mem_append.mp hs with hs | hsM2
              · rcases List.mem_append.mp hs with hs1 | hsH
                · rw [List.mem_singleton] at hs1
                  subst hs1
                  decide
                · rcases mem_piece hsH with rfl | hs2
                  · decide
                  · obtain ⟨kv, hkv, rfl⟩ := List.mem_map.mp hs2
                    exact (hwH kv hkv).2.2.2.2.2.2
              · simp only [List.mem_cons, List.not_mem_nil, or_false] at hsM2
                rcases hsM2 with rfl | rfl | rfl <;> decide
            · rcases mem_piece hsS with rfl | hs2
              · decide
              · obtain ⟨kv, hkv, rfl⟩ := List.mem_map.mp hs2
                exact (hwS kv hkv).2.2.2.2.2.2
          · simp only [List.mem_cons, List.not_mem_nil, or_false] at hsM3
            rcases hsM3 with rfl | rfl | rfl <;> decide
        · rcases mem_piece hsN with rfl | hs2
          · decide
          · obtain ⟨kv, hkv, rfl⟩ := List.mem_map.mp hs2
            exact (hwN kv hkv).2.2.2.2.2.2
      · simp only [List.mem_cons, List.not_mem_nil, or_false] at hsM4
        rcases hsM4 with rfl | rfl | rfl | rfl
        · decide
        · decide
        · decide
        · exact hlineL.2.2.2.2
    · rcases mem_piece hsR with rfl | hs2
      · decide
      · obtain ⟨kv, hkv, rfl⟩ := List.mem_map.mp hs2
        exact (hwR kv hkv).2.2.1.2.2.2.2
  · simp only [List.mem_cons, List.not_mem_nil, or_false] at hsM5
    rcases hsM5 with rfl | rfl <;> decide

end DSP

namespace DSP

/-! ## Piece folds -/

theorem fold_piece_header (kvs : List (String × String)) (st : PState)
    (hs : st.sect = "Header") (hh : st.d.header = [])
    (hwf : ∀ kv ∈ kvs, wfKV kv) (hnd : (keys kvs).Nodup) :
    exFoldl stepLine st (piece (kvs.map kvLine)) =
      .ok { st with d := { st.d with header := kvs } } := by
  cases kvs with
  | nil =>
    rw [show piece (List.map kvLine []) = [""] from rfl]
    rw [exFoldl, step_blank]
    show exFoldl stepLine st [] = _
    rw [exFoldl]
    rw [show ({ st with d := { st.d with header := ([] : List (String × String)) } }) = st
      from by rw [← hh]]
  | cons kv rest =>
    rw [show piece ((kv :: rest).map kvLine) = (kv :: rest).map kvLine from by
      simp [piece]]
    have hfold := fold_kv_header (kv :: rest) st hs hwf hnd
      (by
        intro k _ hk
        rw [hh] at hk
        simp [keys] at hk)
    rw [hfold, hh]
    rfl

theorem fold_piece_scan (kvs : List (String × String)) (st : PState)
    (hs : st.sect = "Scan_Attributes") (hh : st.d.scanattribs = [])
    (hwf : ∀ kv ∈ kvs, wfKV kv) (hnd : (keys kvs).Nodup) :
    exFoldl stepLine st (piece (kvs.map kvLine)) =
      .ok { st with d := { st.d with scanattribs := kvs } } := by
  cases kvs with
  | nil =>
    rw [show piece (List.map kvLine []) = [""] from rfl]
    rw [exFoldl, step_blank]
    show exFoldl stepLine st [] = _
    rw [exFoldl]
    rw [show ({ st with d := { st.d with scanattribs := ([] : List (String × String)) } }) = st
      from by rw [← hh]]
  | cons kv rest =>
    rw [show piece ((kv :: rest).map kvLine) = (kv :: rest).map kvLine from by
      simp [piece]]
    have hfold := fold_kv_scan (kv :: rest) st hs hwf hnd
      (by
        intro k _ hk
        rw [hh] at hk
        simp [keys] at hk)
    rw [hfold, hh]
    rfl

theorem fold_piece_ngs (kvs : List (String × String)) (st : PState)
    (hs : st.sect = "NGS_Processing_Attributes") (hh : st.d.ngsattribs = [])
    (hwf : ∀ kv ∈ kvs, wfKV kv) (hnd : (keys kvs).Nodup) :
    exFoldl stepLine st (piece (kvs.map kvLine)) =
      .ok { st with d := { st.d with ngsattribs := kvs } } := by
  cases kvs with
  | nil =>
    rw [show piece (List.map kvLine []) = [""] from rfl]
    rw [exFoldl, step_blank]
    show exFoldl stepLine st [] = _
    rw [exFoldl]
    rw [show ({ st with d := { st.d with ngsattribs := ([] : List (String × String)) } }) = st
      from by rw [← hh]]
  | cons kv rest =>
    rw [show piece ((kv :: rest).map kvLine) = (kv :: rest).map kvLine from by
      simp [piece]]
    have hfold := fold_kv_ngs (kv :: rest) st hs hwf hnd
      (by
        intro k _ hk
        rw [hh] at hk
        simp [keys] at hk)
    rw [hfold, hh]
    rfl

theorem fold_piece_rows (rows : List (String × List Fld)) (st : PState)
    (hs : st.sect = "Code_Summary") (hst : st.started = true) (hcs : st.d.codesum = [])
    (hwf : ∀ kv ∈ rows, wfRowEntry st.d.namecol kv) (hnd : (keys rows).Nodup) :
    exFoldl stepLine st (piece (rows.map rowLine)) =
      .ok { st with d := { st.d with codesum := rows } } := by
  cases rows with
  | nil =>
    rw [show piece (List.map rowLine []) = [""] from rfl]
    rw [exFoldl, step_blank]
    show exFoldl stepLine st [] = _
    rw [exFoldl]
    rw [show ({ st with d := { st.d with codesum := ([] : List (String × List Fld)) } }) = st
      from by rw [← hcs]]
  | cons kv rest =>
    rw [show piece ((kv :: rest).map rowLine) = (kv :: rest).map rowLine from by
      simp [piece]]
    have hfold := fold_rows (kv :: rest) st hs hst hwf
      (by
        rw [hcs]
        simpa [keys] using hnd)
    rw [hfold, hcs]
    rfl

/-! ## Parsing the serialized lines -/

theorem parse_dccLines (d : DccFile) (h : WfSerializable d) :
    importLines (dccLines d) = .ok d := by
  obtain ⟨hwH, hndH, hwS, hndS, hwN, hndN, hwL, hlineL, hNi, hCi, hndR, hwR⟩ := h
  have h0 : dccLines d = "<Header>" ::
      (piece (d.header.map kvLine) ++ ("</Header>" :: "" :: "<Scan_Attributes>" ::
        (piece (d.scanattribs.map kvLine) ++ ("</Scan_Attributes>" :: "" ::
          "<NGS_Processing_Attributes>" :: (piece (d.ngsattribs.map kvLine) ++
            ("</NGS_Processing_Attributes>" :: "" :: "<Code_Summary>" ::
              joinWith "," d.codelabs ::
                (piece (d.codesum.map rowLine) ++ ["</Code_Summary>", ""]))))))) := by
    simp [dccLines, List.append_assoc]
  unfold importLines
  rw [h0, exFoldl, step_open_header]
  show (exFoldl stepLine (⟨"Header", false, emptyDcc⟩ : PState) _).map _ = _
  rw [exFoldl_append,
    fold_piece_header d.header ⟨"Header", false, emptyDcc⟩ rfl rfl hwH hndH]
  show (exFoldl stepLine
    (⟨"Header", false, ⟨d.header, [], [], [], [], 0, 0⟩⟩ : PState) _).map _ = _
  rw [exFoldl, step_close_header]
  show (exFoldl stepLine
    (⟨"", false, ⟨d.header, [], [], [], [], 0, 0⟩⟩ : PState) _).map _ = _
  rw [exFoldl, step_blank]
  show (exFoldl stepLine
    (⟨"", false, ⟨d.header, [], [], [], [], 0, 0⟩⟩ : PState) _).map _ = _
  rw [exFoldl, step_open_scan]
  show (exFoldl stepLine
    (⟨"Scan_Attributes", false, ⟨d.header, [], [], [], [], 0, 0⟩⟩ : PState) _).map _ = _
  rw [exFoldl_append,
    fold_piece_scan d.scanattribs
      ⟨"Scan_Attributes", false, ⟨d.header, [], [], [], [], 0, 0⟩⟩ rfl rfl hwS hndS]
  show (exFoldl stepLine
    (⟨"Scan_Attributes", false,
      ⟨d.header, d.scanattribs, [], [], [], 0, 0⟩⟩ : PState) _).map _ = _
  rw [exFoldl, step_close_scan]
  show (exFoldl stepLine
    (⟨"", false, ⟨d.header, d.scanattribs, [], [], [], 0, 0⟩⟩ : PState) _).map _ = _
  rw [exFoldl, step_blank]
  show (exFoldl stepLine
    (⟨"", false, ⟨d.header, d.scanattribs, [], [], [], 0, 0⟩⟩ : PState) _).map _ = _
  rw [exFoldl, step_open_ngs]
  show (exFoldl stepLine
    (⟨"NGS_Processing_Attributes", false,
      ⟨d.header, d.scanattribs, [], [], [], 0, 0⟩⟩ : PState) _).map _ = _
  rw [exFoldl_append,
    fold_piece_ngs d.ngsattribs
      ⟨"NGS_Processing_Attributes", false,
        ⟨d.header, d.scanattribs, [], [], [], 0, 0⟩⟩ rfl rfl hwN hndN]
  show (exFoldl stepLine
    (⟨"NGS_Processing_Attributes", false,
      ⟨d.header, d.scanattribs, d.ngsattribs, [], [], 0, 0⟩⟩ : PState) _).map _ = _
  rw [exFoldl, step_close_ngs]
  show (exFoldl stepLine
    (⟨"", false, ⟨d.header, d.scanattribs, d.ngsattribs, [], [], 0, 0⟩⟩ : PState) _).map _ = _
  rw [exFoldl, step_blank]
  show (exFoldl stepLine
    (⟨"", false, ⟨d.header, d.scanattribs, d.ngsattribs, [], [], 0, 0⟩⟩ : PState) _).map _ = _
  rw [exFoldl, step_open_cs]
  show (exFoldl stepLine
    (⟨"Code_Summary", false,
      ⟨d.header, d.scanattribs, d.ngsattribs, [], [], 0, 0⟩⟩ : PState) _).map _ = _
  rw [exFoldl,
    step_label_old
      ⟨"Code_Summary", false, ⟨d.header, d.scanattribs, d.ngsattribs, [], [], 0, 0⟩⟩
      d.codelabs rfl rfl d.namecol d.countcol hNi hCi hwL hlineL]
  show (exFoldl stepLine
    (⟨"Code_Summary", true,
      ⟨d.header, d.scanattribs, d.ngsattribs, d.codelabs, [],
        d.countcol, d.namecol⟩⟩ : PState) _).map _ = _
  rw [exFoldl_append,
    fold_piece_rows d.codesum
      ⟨"Code_Summary", true,
        ⟨d.header, d.scanattribs, d.ngsattribs, d.codelabs, [],
          d.countcol, d.namecol⟩⟩ rfl rfl rfl hwR hndR]
  show (exFoldl stepLine
    (⟨"Code_Summary", true,
      ⟨d.header, d.scanattribs, d.ngsattribs, d.codelabs, d.codesum,
        d.countcol, d.namecol⟩⟩ : PState) _).map _ = _
  rw [exFoldl, step_close_cs]
  show (exFoldl stepLine
    (⟨"", true,
      ⟨d.header, d.scanattribs, d.ngsattribs, d.codelabs, d.codesum,
        d.countcol, d.namecol⟩⟩ : PState) _).map _ = _
  rw [exFoldl, step_blank]
  show (exFoldl stepLine
    (⟨"", true,
      ⟨d.header, d.scanattribs, d.ngsattribs, d.codelabs, d.codesum,
        d.countcol, d.namecol⟩⟩ : PState) _).map _ = _
  rw [exFoldl]
  rfl

end DSP

namespace DSP

/-! ## CRLF invariance of parsing -/

theorem rstrip_cr (l : List Char) : rstripData (l ++ ['\r']) = rstripData l := by
  unfold rstripData
  rw [List.reverse_append]
  rfl

theorem stepLine_rstrip (st : PState) (a b : String) (h : pyRstrip a = pyRstrip b) :
    stepLine st a = stepLine st b := by
  unfold stepLine
  rw [h]

theorem stepLine_cr (st : PState) (l : List Char) :
    stepLine st (String.mk (l ++ ['\r'])) = stepLine st (String.mk l) :=
  stepLine_rstrip st _ _ (congrArg String.mk (rstrip_cr l))

theorem splitChar_crlf (l : List Char) :
    splitChar '\n' (crlfData l) = addCR (splitChar '\n' l) := by
  induction l with
  | nil => rfl
  | cons c r ih =>
    by_cases h : c = '\n'
    · subst h
      rw [show crlfData ('\n' :: r) = '\r' :: '\n' :: crlfData r from by
        simp [crlfData]]
      rw [show splitChar '\n' ('\r' :: '\n' :: crlfData r)
          = ['\r'] :: splitChar '\n' (crlfData r) from by
        simp [splitChar]]
      rw [ih]
      rw [show splitChar '\n' ('\n' :: r) = [] :: splitChar '\n' r from by
        simp [splitChar]]
      cases hs : splitChar '\n' r with
      | nil => exact absurd hs (splitChar_ne_nil _ _)
      | cons s ss => rfl
    · rw [show crlfData (c :: r) = c :: crlfData r from by simp [crlfData, h]]
      rw [show splitChar '\n' (c :: crlfData r)
          = (match splitChar '\n' (crlfData r) with
             | [] => [[c]]
             | p :: ps => (c :: p) :: ps) from by
        simp only [splitChar, if_neg h]]
      rw [ih]
      rw [show splitChar '\n' (c :: r)
          = (match splitChar '\n' r with
             | [] => [[c]]
             | p :: ps => (c :: p) :: ps) from by
        simp only [splitChar, if_neg h]]
      cases hs : splitChar '\n' r with
      | nil => exact absurd hs (splitChar_ne_nil _ _)
      | cons q qs =>
        cases qs with
        | nil => rfl
        | cons q2 qs2 => rfl

theorem fold_addCR (L : List (List Char)) : ∀ st : PState,
    exFoldl stepLine st ((addCR L).map String.mk) =
      exFoldl stepLine st (L.map String.mk) := by
  induction L with
  | nil => intro st; rfl
  | cons x r ih =>
    intro st
    cases r with
    | nil => rfl
    | cons y rs =>
      rw [show addCR (x :: y :: rs) = (x ++ ['\r']) :: addCR (y :: rs) from rfl]
      rw [show ((x ++ ['\r']) :: addCR (y :: rs)).map String.mk
          = String.mk (x ++ ['\r']) :: (addCR (y :: rs)).map String.mk from rfl]
      rw [show ((x :: y :: rs).map String.mk)
          = String.mk x :: (y :: rs).map String.mk from rfl]
      rw [exFoldl, exFoldl, stepLine_cr st x]
      cases hst : stepLine st (String.mk x) with
      | error e => rfl
      | ok st2 =>
        show exFoldl stepLine st2 ((addCR (y :: rs)).map String.mk) = _
        exact ih st2

theorem parse_windows (t : String) :
    parseDccText (windowsText t) = parseDccText t := by
  show importLines ((splitChar '\n' (crlfData t.data)).map String.mk) = _
  rw [splitChar_crlf]
  show (exFoldl stepLine (⟨"", false, emptyDcc⟩ : PState)
    ((addCR (splitChar '\n' t.data)).map String.mk)).map _ = _
  rw [fold_addCR]
  rfl

end DSP

namespace DSP

/-- Counterexample to the round-trip claim as stated: `exComma` holds a comma
inside a header value, so the serialized header line `Owner,lab,main` is
re-parsed as the pair `("Owner", "lab")` and the part after the comma is lost;
parsing the serialization does not return the original file. -/
theorem countfile_roundtrip_counterexample :
    (strdcc exComma).bind parseDccText =
      .ok (⟨[("Owner", "lab")], [], [], ["Name", "Count"], [], 1, 0⟩ : DccFile) ∧
    (strdcc exComma).bind parseDccText ≠ .ok exComma :=
  ⟨by decide, by decide⟩

/-- Claim C2 (amended): for every well-formed serializable CountFile `d` —
string-valued comma-free cells, unique keys, parser-transparent lines, and
column labels consistent with the stored indices — `str(d)` succeeds and
parsing the produced text returns `d` exactly, both for the plain text and
for the CRLF (`windowswrite`) variant. -/
theorem countfile_roundtrip (d : DccFile) (h : WfSerializable d) :
    ∃ t, strdcc d = .ok t ∧ parseDccText t = .ok d ∧
      parseDccText (windowsText t) = .ok d := by
  have hstrs : ∀ kv ∈ d.codesum, ∀ f ∈ kv.2, isStrFld f = true := by
    intro kv hkv
    exact (h.2.2.2.2.2.2.2.2.2.2.2 kv hkv).1
  have hparse : parseDccText (joinWith "\n" (dccLines d)) = .ok d := by
    show importLines ((splitChar '\n' (joinWith "\n" (dccLines d)).data).map String.mk) = _
    rw [split_join (dccLines d) (by simp [dccLines]) (dccLines_no_nl d h)]
    exact parse_dccLines d h
  exact ⟨joinWith "\n" (dccLines d), strdcc_lines d hstrs, hparse,
    (parse_windows _).trans hparse⟩

/-- The round-trip theorem instantiated at the concrete two-analyte file
`exRound`. -/
theorem countfile_roundtrip_witness :
    WfSerializable exRound ∧ ∃ t, strdcc exRound = .ok t ∧
      parseDccText t = .ok exRound ∧ parseDccText (windowsText t) = .ok exRound :=
  ⟨by decide, countfile_roundtrip exRound (by decide)⟩

end DSP
